import Mathlib

/-!
Verification of the cache coordinator in `server/services/cacheService.ts`
(class `CacheService`): a read-through cache with stampede protection,
size-limited writes, pattern invalidation and hit/miss statistics.

The embedding has two layers:

* a sequential, state-passing model (`SeqState`, `cacheGet`, `cacheSet`,
  `cacheDelete`, `cacheDeletePattern`, `cacheFlushAll`, `cacheGetStats`)
  used for the functional claims — each operation is the denotation of the
  corresponding method when it runs without interleaving;
* a small-step event-loop model (`GState`, `step`, `run`) in which each
  `get` call is a task whose atomic segments (the code between `await`
  suspension points) are scheduled explicitly; this is used for the
  concurrency claims (stampede protection, the in-flight registry
  invariant, and the unavailable-backend fallback).

Cached application values are modelled by `JVal`, a JSON-like value type,
with `serialize` playing the role of `JSON.stringify` and `deserialize`
the role of `JSON.parse` (returning `none` where `JSON.parse` throws).
The Redis backend is external to the repository; it is modelled through
its interface contract (get / setex / del / keys / flushall plus a
liveness flag), with a deterministic key-value store standing for the
server.
-/

namespace CacheSpec

/-- JSON-like values cached by the service (the TypeScript code caches
arbitrary `JSON.stringify`-serializable values; we model the sub-universe
of null, booleans and strings, which is closed under the serialize /
deserialize roundtrip). -/
inductive JVal where
  | null
  | bool (b : Bool)
  | str (s : String)
deriving DecidableEq

deriving instance DecidableEq for Except

/-- `JSON.stringify` escaping for the characters that the string encoder
must escape (quote and backslash). -/
def escapeChars : List Char → List Char
  | [] => []
  | c :: cs =>
    if c = '"' ∨ c = '\\' then '\\' :: c :: escapeChars cs
    else c :: escapeChars cs

/-- `JSON.stringify` on `JVal`. -/
def serialize : JVal → String
  | .null => "null"
  | .bool true => "true"
  | .bool false => "false"
  | .str s => String.mk ('"' :: (escapeChars s.data ++ ['"']))

/-- Body parser for a JSON string literal: consumes characters after the
opening quote, unescaping, and succeeds exactly when the input ends with
an unescaped closing quote. -/
def parseStrBody (acc : List Char) : List Char → Option (List Char)
  | [] => none
  | c :: rest =>
    if c = '\\' then
      match rest with
      | [] => none
      | d :: rest2 =>
        if d = '"' ∨ d = '\\' then parseStrBody (d :: acc) rest2 else none
    else if c = '"' then
      match rest with
      | [] => some acc.reverse
      | _ :: _ => none
    else parseStrBody (c :: acc) rest

/-- `JSON.parse` on the modelled value universe; `none` models a thrown
`SyntaxError` (a corrupted cache entry). -/
def deserialize (s : String) : Option JVal :=
  if s = "null" then some .null
  else if s = "true" then some (.bool true)
  else if s = "false" then some (.bool false)
  else
    match s.data with
    | '"' :: rest => (parseStrBody [] rest).map (fun l => .str (String.mk l))
    | _ => none

/-- `this.MAX_OBJECT_SIZE = 1024 * 1024` (cacheService.ts line 10). -/
def MAX_OBJECT_SIZE : Nat := 1024 * 1024

/-! ## Sequential model

`SeqState` is the combined state of the coordinator (the in-flight map
`pendingRequests`, the `hits`/`misses` counters) and its external
collaborator, the key-value backend (a liveness flag — covering both
`redisClient.getClient()` returning null and `isAvailable()` returning
false — plus a store of `(key, raw string, expiry time)` entries and a
clock `now` used for ttl expiry).  The origin fetcher of a `get` call is
modelled by its outcome, an `Except String JVal`; each operation reports
in `GetResult.calls` how many times it invoked the fetcher. -/

structure SeqState where
  available : Bool
  store : List (String × String × Nat)
  now : Nat
  pending : List (String × Except String JVal)
  hits : Nat
  misses : Nat
deriving DecidableEq

/-- First store entry for a key, with its expiry. -/
def storeLookup (store : List (String × String × Nat)) (k : String) :
    Option (String × Nat) :=
  (store.find? (fun e => e.1 == k)).map (fun e => e.2)

/-- Backend `GET key`: the stored string if the key is live, otherwise
absent (Redis expires a key once its ttl has elapsed). -/
def redisGet (s : SeqState) (k : String) : Option String :=
  match storeLookup s.store k with
  | some (v, exp) => if s.now < exp then some v else none
  | none => none

/-- Backend `SETEX key ttl value`: overwrite the binding for the key. -/
def storeInsert (store : List (String × String × Nat)) (k v : String)
    (exp : Nat) : List (String × String × Nat) :=
  (k, v, exp) :: store.filter (fun e => !(e.1 == k))

/-- JavaScript truthiness of `string | null` (cacheService.ts line 26:
`if (cachedValue)`): both `null` and the empty string are falsy. -/
def truthy : Option String → Bool
  | some c => c != ""
  | none => false

/-- `CacheService.set` (lines 68-85): no-op when the backend is
unavailable; serializes the value and silently skips the write when the
serialized size exceeds `MAX_OBJECT_SIZE`; otherwise `SETEX` with the
given ttl. -/
def cacheSet (s : SeqState) (k : String) (v : JVal) (ttl : Nat) : SeqState :=
  if !s.available then s
  else
    let sv := serialize v
    if sv.length > MAX_OBJECT_SIZE then s
    else { s with store := storeInsert s.store k sv (s.now + ttl) }

/-- Result of one `get` call: the value delivered to the caller (an
`Except`, since an origin-fetch failure is the one error that propagates),
the post-state, and the number of times this call invoked its origin
fetcher. -/
structure GetResult where
  result : Except String JVal
  state : SeqState
  calls : Nat
deriving DecidableEq

/-- The miss continuation of `CacheService.get` (lines 32-56): count the
miss, return the shared in-flight promise when one exists, otherwise run
the fetcher, cache its value via `set` on success, and return. -/
def cacheGetMiss (s : SeqState) (k : String) (fetch : Except String JVal)
    (ttl : Nat) : GetResult :=
  let s1 := { s with misses := s.misses + 1 }
  match s1.pending.find? (fun e => e.1 == k) with
  | some e => ⟨e.2, s1, 0⟩
  | none =>
    match fetch with
    | .ok v => ⟨.ok v, cacheSet s1 k v ttl, 1⟩
    | .error e => ⟨.error e, s1, 1⟩

/-- `CacheService.get` (lines 15-63) run without interleaving: fall back
to the fetcher when the backend is unavailable; on a truthy cached string
count a hit and deserialize it — a deserialization failure is caught by
the outer `catch`, which falls back to invoking the fetcher directly;
otherwise take the miss path. -/
def cacheGet (s : SeqState) (k : String) (fetch : Except String JVal)
    (ttl : Nat) : GetResult :=
  if !s.available then ⟨fetch, s, 1⟩
  else
    match redisGet s k with
    | some c =>
      if c = "" then cacheGetMiss s k fetch ttl
      else
        let s1 := { s with hits := s.hits + 1 }
        match deserialize c with
        | some v => ⟨.ok v, s1, 0⟩
        | none => ⟨fetch, s1, 1⟩
    | none => cacheGetMiss s k fetch ttl

/-- `CacheService.delete` (lines 90-100): backend `DEL key`. -/
def cacheDelete (s : SeqState) (k : String) : SeqState :=
  if !s.available then s
  else { s with store := s.store.filter (fun e => !(e.1 == k)) }

/-- Redis glob matching (`KEYS pattern`), over character lists: `*`
matches any sequence, `?` any single character, anything else itself.
Written with an explicit recursion budget — every recursive call shrinks
pattern-length plus string-length, so `p.length + s.length + 1` units
always suffice — to keep the function structurally recursive and hence
kernel-computable. -/
def globMatchAux : Nat → List Char → List Char → Bool
  | 0, _, _ => false
  | _ + 1, [], s => s.isEmpty
  | fuel + 1, p :: ps, s =>
    if p = '*' then
      match s with
      | [] => globMatchAux fuel ps []
      | c :: cs =>
        globMatchAux fuel ps (c :: cs) || globMatchAux fuel (p :: ps) cs
    else
      match s with
      | [] => false
      | c :: cs => (p == '?' || p == c) && globMatchAux fuel ps cs

def globMatch (p s : List Char) : Bool :=
  globMatchAux (p.length + s.length + 1) p s

/-- The store entries a `KEYS pattern` query reports: live entries whose
key matches the glob. -/
def matchedLive (s : SeqState) (p : String) (e : String × String × Nat) : Bool :=
  globMatch p.data e.1.data && decide (s.now < e.2.2)

/-- Backend `KEYS pattern`: the live keys matching the glob. -/
def redisKeys (s : SeqState) (p : String) : List String :=
  (s.store.filter (matchedLive s p)).map (fun e => e.1)

/-- Backend `DEL k1 ... kn`. -/
def redisDel (s : SeqState) (ks : List String) : SeqState :=
  { s with store := s.store.filter (fun e => !(ks.contains e.1)) }

/-- `CacheService.deletePattern` (lines 105-118): `KEYS pattern`, then a
batched `DEL` when the match set is nonempty. -/
def cacheDeletePattern (s : SeqState) (p : String) : SeqState :=
  if !s.available then s
  else
    let ks := redisKeys s p
    if ks.isEmpty then s else redisDel s ks

/-- `CacheService.flushAll` (lines 130-140): backend `FLUSHALL`. -/
def cacheFlushAll (s : SeqState) : SeqState :=
  if !s.available then s else { s with store := [] }

/-- The snapshot returned by `CacheService.getStats` (lines 145-153).
`hitRatePct` is the exact rational `(hits / total) * 100`; the code
formats it with `toFixed(2)` and a percent sign, which we abstract. -/
structure StatsSnapshot where
  hits : Nat
  misses : Nat
  hitRatePct : ℚ
  pendingRequests : Nat
deriving DecidableEq

/-- `CacheService.getStats`: a read-only snapshot (the method only reads
`this.stats` and `this.pendingRequests.size`, so the state component is
returned unchanged). -/
def cacheGetStats (s : SeqState) : StatsSnapshot × SeqState :=
  let total := s.hits + s.misses
  let rate : ℚ := if total > 0 then ((s.hits : ℚ) / (total : ℚ)) * 100 else 0
  (⟨s.hits, s.misses, rate, s.pending.length⟩, s)

/-- Passage of wall-clock time between calls (the coordinator never
expires entries itself; expiry is the backend's ttl mechanism, observed
through `redisGet`). -/
def tick (s : SeqState) (t : Nat) : SeqState := { s with now := t }

/-! ## Sequences of get operations (for the statistics claim) -/

/-- One request of a sequential workload: key, origin-fetcher outcome,
ttl. -/
abbrev GetReq := String × Except String JVal × Nat

def runGets (s : SeqState) : List GetReq → SeqState
  | [] => s
  | (k, f, ttl) :: rs => runGets (cacheGet s k f ttl).state rs

/-- Number of requests of the workload that hit the cache (truthy backend
read at their point of execution). -/
def countHits (s : SeqState) : List GetReq → Nat
  | [] => 0
  | (k, f, ttl) :: rs =>
    (if truthy (redisGet s k) then 1 else 0) +
      countHits (cacheGet s k f ttl).state rs

/-- Number of requests of the workload that miss the cache. -/
def countMisses (s : SeqState) : List GetReq → Nat
  | [] => 0
  | (k, f, ttl) :: rs =>
    (if truthy (redisGet s k) then 0 else 1) +
      countMisses (cacheGet s k f ttl).state rs

/-- Total origin-fetcher invocations across the workload. -/
def countCalls (s : SeqState) : List GetReq → Nat
  | [] => 0
  | (k, f, ttl) :: rs =>
    (cacheGet s k f ttl).calls + countCalls (cacheGet s k f ttl).state rs

/-- Sequential well-formedness: no in-flight entry survives between
operations, and every stored string was produced by `serialize` (between
calls, the coordinator itself is the only writer). -/
def SeqWF (s : SeqState) : Prop :=
  s.pending = [] ∧ ∀ e ∈ s.store, ∃ v, e.2.1 = serialize v

/-! ## Concurrent model

Node's event loop runs the code between `await` suspension points
atomically.  A `get` call is a `Task`; its first atomic segment
(`stepRead`) covers everything from the availability check to either a
cache hit, attaching to an existing in-flight promise, or invoking the
fetcher and registering a new in-flight entry — the source performs the
`pendingRequests.has` check and the `pendingRequests.set` with no
intervening suspension, and the async IIFE invokes `fetchFunction()`
synchronously up to its first internal suspension.

The in-flight computation itself (the IIFE) is a `Flight`.  Its fetch
settles at `stepSettle`: on failure the `finally` runs at once (the entry
is deleted in the same segment); on success the continuation calls
`this.set`, which issues the backend write and suspends (`.writing`) —
only when that write round-trip completes (`stepWrite`) does the
`finally` delete the entry and the shared promise settle.  A waiter is
resumed (`stepFinish`) once the flight has settled.  The backend write is
linearized at the settle step.  Ttl expiry is abstracted away here: no
wall-clock time passes inside one stampede window. -/

inductive TPhase where
  | ready
  | waiting (fid : Nat)
  | done (r : Except String JVal)
deriving DecidableEq

/-- One `get(key, fetchFunction, ttl)` call: its fetcher is modelled by
the outcome the fetcher would produce, and `calls` counts how many times
this call actually invoked it. -/
structure Task where
  key : String
  fetch : Except String JVal
  phase : TPhase
  calls : Nat
deriving DecidableEq

inductive FPhase where
  | fetching
  | writing
  | settled
deriving DecidableEq

/-- An in-flight computation (the async IIFE of lines 42-53). -/
structure Flight where
  key : String
  result : Except String JVal
  phase : FPhase
deriving DecidableEq

/-- Global event-loop state: backend (liveness flag and store), the call
tasks, every flight ever created (indexed by position; `inflight` is the
`pendingRequests` map from key to flight index), and the counters. -/
structure GState where
  available : Bool
  store : List (String × String)
  tasks : List Task
  flights : List Flight
  inflight : List (String × Nat)
  hits : Nat
  misses : Nat
deriving DecidableEq

/-- `Map.get` on the backend store. -/
def gLookup (store : List (String × String)) (k : String) : Option String :=
  (store.find? (fun e => e.1 == k)).map (fun e => e.2)

/-- Backend write, overwriting the binding for the key. -/
def gInsert (store : List (String × String)) (k v : String) :
    List (String × String) :=
  (k, v) :: store.filter (fun e => !(e.1 == k))

/-- `pendingRequests.get(key)`. -/
def mapLookup (m : List (String × Nat)) (k : String) : Option Nat :=
  (m.find? (fun e => e.1 == k)).map (fun e => e.2)

/-- `pendingRequests.delete(key)`. -/
def mapErase (m : List (String × Nat)) (k : String) : List (String × Nat) :=
  m.filter (fun e => !(e.1 == k))

inductive Action where
  | taskRead (i : Nat)
  | flightSettle (fid : Nat)
  | flightWrite (fid : Nat)
  | taskFinish (i : Nat)
deriving DecidableEq

/-- Miss continuation of the read segment (lines 32-56): count the miss;
attach to an existing in-flight entry, or invoke the fetcher, create the
flight, and register it under the key. -/
def stepReadMiss (g : GState) (i : Nat) (t : Task) : GState :=
  let g1 := { g with misses := g.misses + 1 }
  match mapLookup g1.inflight t.key with
  | some fid =>
    { g1 with tasks := g1.tasks.set i { t with phase := .waiting fid } }
  | none =>
    let fid := g1.flights.length
    let t1 := { t with phase := TPhase.waiting fid, calls := t.calls + 1 }
    { g1 with
        flights := g1.flights ++ [⟨t.key, t.fetch, .fetching⟩],
        inflight := (t.key, fid) :: g1.inflight,
        tasks := g1.tasks.set i t1 }

/-- First atomic segment of a `get` call (lines 15-56 up to the first
suspension that matters): unavailable backend → invoke the fetcher
directly; truthy cached string → hit (a parse failure reaches the outer
`catch`, which invokes the fetcher directly); otherwise the miss path. -/
def stepRead (g : GState) (i : Nat) : GState :=
  match g.tasks.get? i with
  | none => g
  | some t =>
    if t.phase ≠ TPhase.ready then g
    else if !g.available then
      let t1 := { t with phase := TPhase.done t.fetch, calls := t.calls + 1 }
      { g with tasks := g.tasks.set i t1 }
    else
      match gLookup g.store t.key with
      | some c =>
        if c = "" then stepReadMiss g i t
        else
          let g1 := { g with hits := g.hits + 1 }
          match deserialize c with
          | some v =>
            { g1 with tasks := g1.tasks.set i { t with phase := .done (.ok v) } }
          | none =>
            let t1 := { t with phase := TPhase.done t.fetch, calls := t.calls + 1 }
            { g1 with tasks := g1.tasks.set i t1 }
      | none => stepReadMiss g i t

/-- The flight's fetch settles.  On success the continuation runs
`this.set` synchronously up to the backend write (linearized here,
subject to the availability and size checks of lines 70-79) and suspends;
on failure the `finally` deletes the in-flight entry in this same
segment and the shared promise rejects. -/
def stepSettle (g : GState) (fid : Nat) : GState :=
  match g.flights.get? fid with
  | none => g
  | some fl =>
    if fl.phase ≠ FPhase.fetching then g
    else
      match fl.result with
      | .ok v =>
        let store1 :=
          if g.available && decide ((serialize v).length ≤ MAX_OBJECT_SIZE)
          then gInsert g.store fl.key (serialize v)
          else g.store
        { g with store := store1,
                 flights := g.flights.set fid { fl with phase := .writing } }
      | .error _ =>
        { g with flights := g.flights.set fid { fl with phase := .settled },
                 inflight := mapErase g.inflight fl.key }

/-- The write-back round-trip of a successful flight completes: the
`finally` deletes the in-flight entry and the shared promise resolves. -/
def stepWrite (g : GState) (fid : Nat) : GState :=
  match g.flights.get? fid with
  | none => g
  | some fl =>
    if fl.phase ≠ FPhase.writing then g
    else
      { g with flights := g.flights.set fid { fl with phase := .settled },
               inflight := mapErase g.inflight fl.key }

/-- A caller awaiting the shared in-flight promise resumes once that
promise has settled, receiving the flight's outcome. -/
def stepFinish (g : GState) (i : Nat) : GState :=
  match g.tasks.get? i with
  | none => g
  | some t =>
    match t.phase with
    | .waiting fid =>
      match g.flights.get? fid with
      | some fl =>
        if fl.phase = FPhase.settled then
          { g with tasks := g.tasks.set i { t with phase := .done fl.result } }
        else g
      | none => g
    | _ => g

def step (g : GState) : Action → GState
  | .taskRead i => stepRead g i
  | .flightSettle fid => stepSettle g fid
  | .flightWrite fid => stepWrite g fid
  | .taskFinish i => stepFinish g i

/-- Run a schedule: the event loop executes the listed atomic segments in
order (segments whose guard does not hold leave the state unchanged). -/
def run (g : GState) (σ : List Action) : GState := σ.foldl step g

def isSettleAct : Action → Bool
  | .flightSettle _ => true
  | _ => false

def isReadAct : Action → Bool
  | .taskRead _ => true
  | _ => false

def isDone : TPhase → Bool
  | .done _ => true
  | _ => false

/-- Total number of origin-fetcher invocations across all call tasks. -/
def totalCalls (ts : List Task) : Nat := (ts.map Task.calls).sum

/-- Well-formed start of a scenario: no in-flight entries or flights yet,
every call task still to run. -/
def WFInit (g : GState) : Prop :=
  g.inflight = [] ∧ g.flights = [] ∧
  ∀ t ∈ g.tasks, t.phase = TPhase.ready ∧ t.calls = 0

/-- Start of the stampede scenario: backend available, the key uncached,
no flight yet, and `n` call tasks all requesting `k` with the same origin
fetcher `f`. -/
def stampedeInit (g : GState) (k : String) (f : Except String JVal)
    (n : Nat) : Prop :=
  g.available = true ∧ gLookup g.store k = none ∧ g.inflight = [] ∧
  g.flights = [] ∧ g.tasks = List.replicate n ⟨k, f, .ready, 0⟩

/-- Every call task has completed. -/
def AllDone (g : GState) : Prop := ∀ t ∈ g.tasks, isDone t.phase = true

/-- The store after the write-back of a successfully fetched value
(written only when it passes the size guard). -/
def writeBackStore (st : List (String × String)) (k : String) (v : JVal) :
    List (String × String) :=
  if (serialize v).length ≤ MAX_OBJECT_SIZE then gInsert st k (serialize v)
  else st

/-- Invariant of the stampede window while the fetch has not settled:
either no caller has run yet, or the first one has created the single
flight and every other caller is still to run or already awaits it. -/
def StampedeInv1 (k : String) (f : Except String JVal) (n : Nat)
    (st0 : List (String × String)) (g : GState) : Prop :=
  g.available = true ∧ g.store = st0 ∧ gLookup st0 k = none ∧
  g.tasks.length = n ∧ (∀ t ∈ g.tasks, t.key = k ∧ t.fetch = f) ∧
  ((g.flights = [] ∧ g.inflight = [] ∧
      ∀ t ∈ g.tasks, t.phase = TPhase.ready ∧ t.calls = 0) ∨
   (g.flights = [⟨k, f, .fetching⟩] ∧ g.inflight = [(k, 0)] ∧
      totalCalls g.tasks = 1 ∧
      ∀ t ∈ g.tasks, (t.phase = TPhase.ready ∧ t.calls = 0) ∨
        t.phase = TPhase.waiting 0))

/-- Invariant after every caller has registered on the single flight:
the flight progresses fetching → (writing →) settled, the registry entry
is removed at settlement (on failure) or after the write-back (on
success), and tasks finish with the flight's result. -/
def StampedeInv2 (k : String) (f : Except String JVal) (n : Nat)
    (st0 : List (String × String)) (g : GState) : Prop :=
  g.available = true ∧ g.tasks.length = n ∧ totalCalls g.tasks = 1 ∧
  (∀ t ∈ g.tasks, t.key = k ∧ t.fetch = f ∧
      (t.phase = TPhase.waiting 0 ∨ t.phase = TPhase.done f)) ∧
  ((g.flights = [⟨k, f, .fetching⟩] ∧ g.inflight = [(k, 0)] ∧
      g.store = st0) ∨
   (∃ v, f = .ok v ∧ g.flights = [⟨k, f, .writing⟩] ∧
      g.inflight = [(k, 0)] ∧ g.store = writeBackStore st0 k v) ∨
   (∃ v, f = .ok v ∧ g.flights = [⟨k, f, .settled⟩] ∧ g.inflight = [] ∧
      g.store = writeBackStore st0 k v) ∨
   (∃ e, f = .error e ∧ g.flights = [⟨k, f, .settled⟩] ∧ g.inflight = [] ∧
      g.store = st0))

/-- The in-flight registry invariant: at most one entry per key, and
every entry points at the flight for its key, whose computation has not
yet settled. -/
def MapInv (g : GState) : Prop :=
  (g.inflight.map (fun e => e.1)).Nodup ∧
  ∀ e ∈ g.inflight, ∃ fl, g.flights.get? e.2 = some fl ∧ fl.key = e.1 ∧
    fl.phase ≠ FPhase.settled

/-- Claim C2 as stated: the registry entry is removed as soon as the
origin fetch settles, i.e. while an entry exists its flight's fetch is
still running (`fetching`). -/
def C2AsStated : Prop :=
  ∀ (g0 : GState) (σ : List Action), WFInit g0 →
    ∀ e ∈ (run g0 σ).inflight,
      ∃ fl, (run g0 σ).flights.get? e.2 = some fl ∧
        fl.phase = FPhase.fetching

/-- Invariant of the unavailable-backend fallback mode: counters, store
and registry frozen, no flights, and every call either still to run or
completed by one direct invocation of its own fetcher. -/
def UnavailInv (g0 g : GState) : Prop :=
  g.available = false ∧ g.store = g0.store ∧ g.hits = g0.hits ∧
  g.misses = g0.misses ∧ g.inflight = [] ∧ g.flights = [] ∧
  ∀ i t0, g0.tasks.get? i = some t0 →
    ∃ t, g.tasks.get? i = some t ∧ t.key = t0.key ∧ t.fetch = t0.fetch ∧
      ((t.phase = TPhase.ready ∧ t.calls = 0) ∨
       (t.phase = TPhase.done t0.fetch ∧ t.calls = 1))

/-! ## Claim statements quoted from the spec -/

/-- Claim C5 as stated: a `get` that reads a stored value which cannot be
deserialized treats the failure as equivalent to a cache miss (so, in
particular, the miss counter is incremented), falling through to the
in-flight-registry step. -/
def C5AsStated : Prop :=
  ∀ (s : SeqState) (k : String) (f : Except String JVal) (ttl : Nat)
    (c : String),
    s.available = true → redisGet s k = some c → c ≠ "" →
    deserialize c = none →
    (cacheGet s k f ttl).state.misses = s.misses + 1


lemma parseStrBody_escape (l acc : List Char) :
    parseStrBody acc (escapeChars l ++ ['"']) = some (acc.reverse ++ l) := by
  induction l generalizing acc with
  | nil => simp [escapeChars, parseStrBody]
  | cons c cs ih =>
    by_cases hc : c = '"' ∨ c = '\\'
    · have hbs : ¬ ('\\' = '"') := by decide
      simp only [escapeChars, if_pos hc, List.cons_append, parseStrBody,
        if_neg hbs, if_pos rfl, if_pos hc, ih]
      simp
    · have h1 : ¬ (c = '\\') := fun h => hc (Or.inr h)
      have h2 : ¬ (c = '"') := fun h => hc (Or.inl h)
      simp only [escapeChars, if_neg hc, List.cons_append]
      rw [parseStrBody.eq_def]
      simp only [if_neg h1, if_neg h2, ih]
      simp

lemma deserialize_serialize (v : JVal) : deserialize (serialize v) = some v := by
  cases v with
  | null => decide
  | bool b => cases b <;> decide
  | str s =>
    have hdata : (serialize (.str s)).data = '"' :: (escapeChars s.data ++ ['"']) := rfl
    have hne_null : serialize (.str s) ≠ "null" := by
      intro h
      have := congrArg String.data h
      rw [hdata] at this
      simp [String.data] at this
    have hne_true : serialize (.str s) ≠ "true" := by
      intro h
      have := congrArg String.data h
      rw [hdata] at this
      simp [String.data] at this
    have hne_false : serialize (.str s) ≠ "false" := by
      intro h
      have := congrArg String.data h
      rw [hdata] at this
      simp [String.data] at this
    rw [deserialize, if_neg hne_null, if_neg hne_true, if_neg hne_false, hdata]
    simp [parseStrBody_escape s.data []]

lemma serialize_ne_empty (v : JVal) : serialize v ≠ "" := by
  cases v with
  | null => decide
  | bool b => cases b <;> decide
  | str s =>
    intro h
    have := congrArg String.data h
    simp [serialize, String.data] at this

lemma escapeChars_replicate_a (n : Nat) :
    escapeChars (List.replicate n 'a') = List.replicate n 'a' := by
  induction n with
  | zero => rfl
  | succ m ih => simp [List.replicate_succ, escapeChars, ih]

lemma serialize_str_replicate_a_length (n : Nat) :
    (serialize (.str (String.mk (List.replicate n 'a')))).length = n + 2 := by
  show ('"' :: (escapeChars (List.replicate n 'a') ++ ['"'])).length = n + 2
  rw [escapeChars_replicate_a]
  simp

/-! ## Helper lemmas about the sequential model -/

lemma storeLookup_insert (store : List (String × String × Nat)) (k v : String)
    (exp : Nat) : storeLookup (storeInsert store k v exp) k = some (v, exp) := by
  simp [storeLookup, storeInsert, List.find?_cons]

lemma cacheGetMiss_calls (s : SeqState) (k : String) (f : Except String JVal)
    (ttl : Nat) (hp : s.pending.find? (fun e => e.1 == k) = none) :
    (cacheGetMiss s k f ttl).calls = 1 := by
  unfold cacheGetMiss
  simp only [hp]
  cases f <;> rfl

lemma cacheGet_miss_calls (s : SeqState) (k : String) (f : Except String JVal)
    (ttl : Nat) (h1 : s.available = true) (h2 : truthy (redisGet s k) = false)
    (hp : s.pending.find? (fun e => e.1 == k) = none) :
    (cacheGet s k f ttl).calls = 1 := by
  unfold cacheGet
  simp only [h1, Bool.not_true, Bool.false_eq_true, if_false]
  cases hr : redisGet s k with
  | none => exact cacheGetMiss_calls s k f ttl hp
  | some c =>
    have hc : c = "" := by
      rw [hr] at h2
      simpa [truthy] using h2
    simp only [hc, if_pos rfl]
    exact cacheGetMiss_calls s k f ttl hp

lemma cacheGet_hit (s : SeqState) (k : String) (f : Except String JVal)
    (ttl : Nat) (c : String) (v : JVal) (h1 : s.available = true)
    (h2 : redisGet s k = some c) (h3 : c ≠ "") (h4 : deserialize c = some v) :
    cacheGet s k f ttl = ⟨.ok v, { s with hits := s.hits + 1 }, 0⟩ := by
  unfold cacheGet
  simp [h1, h2, h3, h4]

lemma cacheGet_miss_ok (s : SeqState) (k : String) (v : JVal) (ttl : Nat)
    (h1 : s.available = true) (h2 : truthy (redisGet s k) = false)
    (hp : s.pending.find? (fun e => e.1 == k) = none)
    (h4 : (serialize v).length ≤ MAX_OBJECT_SIZE) :
    cacheGet s k (.ok v) ttl =
      ⟨.ok v,
        { s with misses := s.misses + 1,
                 store := storeInsert s.store k (serialize v) (s.now + ttl) },
        1⟩ := by
  obtain ⟨av, st, tno, pe, hi, mi⟩ := s
  have h1' : av = true := h1
  subst h1'
  have hmiss : cacheGetMiss ⟨true, st, tno, pe, hi, mi⟩ k (.ok v) ttl =
      ⟨.ok v, ⟨true, storeInsert st k (serialize v) (tno + ttl), tno, pe, hi,
        mi + 1⟩, 1⟩ := by
    unfold cacheGetMiss
    simp only [hp]
    unfold cacheSet
    simp [Nat.not_lt.mpr h4]
  unfold cacheGet
  simp only [Bool.not_true, Bool.false_eq_true, if_false]
  cases hr : redisGet ⟨true, st, tno, pe, hi, mi⟩ k with
  | none => exact hmiss
  | some c =>
    have hc : c = "" := by
      rw [hr] at h2
      simpa [truthy] using h2
    subst hc
    simpa using hmiss

/-! ## Claim C4 -/

/-- Claim C4: when the backend client is absent or its liveness check
reports unavailable (both collapsed into `available = false`),
`get` returns exactly the result of invoking the fetcher directly —
invoked exactly once, with its own failure the only one that can
propagate — and changes no state; `delete`, `deletePattern` and
`flushAll` are no-ops. -/
theorem C4_fail_open (s : SeqState) (k p : String) (f : Except String JVal)
    (ttl : Nat) (h : s.available = false) :
    cacheGet s k f ttl = ⟨f, s, 1⟩ ∧ cacheDelete s k = s ∧
    cacheDeletePattern s p = s ∧ cacheFlushAll s = s := by
  unfold cacheGet cacheDelete cacheDeletePattern cacheFlushAll
  simp [h]

theorem C4_fail_open_witness :
    cacheGet ⟨false, [], 0, [], 0, 0⟩ "k" (.ok .null) 60 =
      ⟨.ok .null, ⟨false, [], 0, [], 0, 0⟩, 1⟩ ∧
    cacheDelete ⟨false, [], 0, [], 0, 0⟩ "k" = ⟨false, [], 0, [], 0, 0⟩ ∧
    cacheDeletePattern ⟨false, [], 0, [], 0, 0⟩ "p" = ⟨false, [], 0, [], 0, 0⟩ ∧
    cacheFlushAll ⟨false, [], 0, [], 0, 0⟩ = ⟨false, [], 0, [], 0, 0⟩ :=
  C4_fail_open ⟨false, [], 0, [], 0, 0⟩ "k" "p" (.ok .null) 60 rfl

/-! ## Claim C5 -/

/-- Claim C5 is false on the code: with `"garbage"` stored under `"k"`,
the parse failure propagates to the outer `catch` — after `this.stats.hits`
was already incremented — so the miss counter stays untouched. -/
theorem C5_counterexample : ¬ C5AsStated := by
  intro h
  have := h ⟨true, [("k", "garbage", 10)], 0, [], 0, 0⟩ "k" (.ok .null) 60
    "garbage" rfl (by decide) (by decide) (by decide)
  exact absurd this (by decide)

/-- Claim C5 amended: the parse error is never propagated to the caller —
the exception reaches the outer `catch`, which invokes the origin fetcher
directly and returns its result.  The in-flight registry is bypassed, the
fresh value is not cached (the corrupted entry stays in place), and the
access has already been counted as a hit, not a miss. -/
theorem C5_amended (s : SeqState) (k : String) (f : Except String JVal)
    (ttl : Nat) (c : String) (h1 : s.available = true)
    (h2 : redisGet s k = some c) (h3 : c ≠ "") (h4 : deserialize c = none) :
    cacheGet s k f ttl = ⟨f, { s with hits := s.hits + 1 }, 1⟩ := by
  unfold cacheGet
  simp [h1, h2, h3, h4]

theorem C5_amended_witness :
    cacheGet ⟨true, [("k", "garbage", 10)], 0, [], 0, 0⟩ "k" (.ok .null) 60 =
      ⟨.ok .null, ⟨true, [("k", "garbage", 10)], 0, [], 1, 0⟩, 1⟩ :=
  C5_amended ⟨true, [("k", "garbage", 10)], 0, [], 0, 0⟩ "k" (.ok .null) 60
    "garbage" rfl (by decide) (by decide) (by decide)

/-! ## Claim C6 -/

/-- Claim C6: `set` serializes the value; above the 1 MiB limit the entry
is never written and no error is raised (the state is returned unchanged),
so a subsequent `get` for a key that is not otherwise cached re-invokes
its origin fetcher; within the limit the value is written with the given
ttl (recorded as the expiry `now + ttl`). -/
theorem C6_size_limit (s : SeqState) (k : String) (v w : JVal)
    (ttl ttl2 : Nat) (f : Except String JVal)
    (h1 : s.available = true)
    (h2 : (serialize v).length > MAX_OBJECT_SIZE)
    (h3 : (serialize w).length ≤ MAX_OBJECT_SIZE)
    (h4 : truthy (redisGet s k) = false)
    (h5 : s.pending.find? (fun e => e.1 == k) = none) :
    cacheSet s k v ttl = s ∧
    (cacheGet (cacheSet s k v ttl) k f ttl2).calls = 1 ∧
    storeLookup (cacheSet s k w ttl).store k = some (serialize w, s.now + ttl) := by
  have hskip : cacheSet s k v ttl = s := by
    unfold cacheSet
    simp [h1, h2]
  refine ⟨hskip, ?_, ?_⟩
  · rw [hskip]
    exact cacheGet_miss_calls s k f ttl2 h1 h4 h5
  · unfold cacheSet
    simp only [h1, Bool.not_true, Bool.false_eq_true, if_false,
      Nat.not_lt.mpr h3, if_neg (Nat.not_lt.mpr h3)]
    simp [storeLookup_insert]

/-- Witness for C6: a string of 2 ^ 20 + 1 characters serializes to more
than `MAX_OBJECT_SIZE` bytes and is skipped; `null` fits and is written. -/
theorem C6_size_limit_witness :
    cacheSet ⟨true, [], 0, [], 0, 0⟩ "k"
        (.str (String.mk (List.replicate (1024 * 1024 + 1) 'a'))) 60 =
      ⟨true, [], 0, [], 0, 0⟩ ∧
    (cacheGet
        (cacheSet ⟨true, [], 0, [], 0, 0⟩ "k"
          (.str (String.mk (List.replicate (1024 * 1024 + 1) 'a'))) 60)
        "k" (.ok .null) 60).calls = 1 ∧
    storeLookup
        (cacheSet ⟨true, [], 0, [], 0, 0⟩ "k" JVal.null 60).store "k" =
      some (serialize JVal.null, 0 + 60) :=
  C6_size_limit ⟨true, [], 0, [], 0, 0⟩ "k"
    (.str (String.mk (List.replicate (1024 * 1024 + 1) 'a'))) JVal.null 60 60
    (.ok .null) rfl
    (by rw [serialize_str_replicate_a_length]; decide)
    (by decide) (by decide) (by decide)

/-! ## Claim C3 -/

/-- Claim C3: after a `get` on an uncached key fetched `v` from the origin
and cached it (the serialized value fits the size limit and the backend is
available), a second `get` performed at any time `t2` before the ttl
elapses returns `v` from the cache — whatever its own fetcher `f2` would
produce — and never invokes `f2`. -/
theorem C3_read_through (s : SeqState) (k : String) (v : JVal)
    (ttl ttl2 t2 : Nat) (f2 : Except String JVal)
    (h1 : s.available = true)
    (h2 : truthy (redisGet s k) = false)
    (h3 : s.pending.find? (fun e => e.1 == k) = none)
    (h4 : (serialize v).length ≤ MAX_OBJECT_SIZE)
    (h5 : t2 < s.now + ttl) :
    (cacheGet s k (.ok v) ttl).result = .ok v ∧
    (cacheGet s k (.ok v) ttl).calls = 1 ∧
    (cacheGet (tick (cacheGet s k (.ok v) ttl).state t2) k f2 ttl2).result =
      .ok v ∧
    (cacheGet (tick (cacheGet s k (.ok v) ttl).state t2) k f2 ttl2).calls = 0 := by
  have hfirst := cacheGet_miss_ok s k v ttl h1 h2 h3 h4
  have hget2 : redisGet (tick (cacheGet s k (.ok v) ttl).state t2) k =
      some (serialize v) := by
    rw [hfirst]
    unfold tick redisGet
    simp only
    rw [storeLookup_insert]
    simp [h5]
  have hhit := cacheGet_hit (tick (cacheGet s k (.ok v) ttl).state t2) k f2 ttl2
    (serialize v) v (by rw [hfirst]; exact h1) hget2 (serialize_ne_empty v)
    (deserialize_serialize v)
  rw [hfirst] at hhit ⊢
  rw [hhit]
  exact ⟨rfl, rfl, rfl, rfl⟩

theorem C3_read_through_witness :
    (cacheGet ⟨true, [], 0, [], 0, 0⟩ "k" (.ok (.bool true)) 60).result =
      .ok (.bool true) ∧
    (cacheGet ⟨true, [], 0, [], 0, 0⟩ "k" (.ok (.bool true)) 60).calls = 1 ∧
    (cacheGet
        (tick (cacheGet ⟨true, [], 0, [], 0, 0⟩ "k" (.ok (.bool true)) 60).state
          30) "k" (.ok (.str "other")) 60).result = .ok (.bool true) ∧
    (cacheGet
        (tick (cacheGet ⟨true, [], 0, [], 0, 0⟩ "k" (.ok (.bool true)) 60).state
          30) "k" (.ok (.str "other")) 60).calls = 0 :=
  C3_read_through ⟨true, [], 0, [], 0, 0⟩ "k" (.bool true) 60 60 30
    (.ok (.str "other")) rfl (by decide) (by decide) (by decide) (by decide)

/-! ## Claim C8 -/

/-- Claim C8: a `null` result from the origin fetcher is cached and served
like any other value — `JSON.stringify(null)` is the truthy string
`"null"` — so the fetched `null` is stored under the key and a second
`get` before ttl expiry returns `null` from the cache without invoking
its fetcher. -/
theorem C8_null_cached (s : SeqState) (k : String) (ttl ttl2 t2 : Nat)
    (f2 : Except String JVal)
    (h1 : s.available = true)
    (h2 : truthy (redisGet s k) = false)
    (h3 : s.pending.find? (fun e => e.1 == k) = none)
    (h4 : 0 < ttl) (h5 : t2 < s.now + ttl) :
    (cacheGet s k (.ok .null) ttl).result = .ok .null ∧
    redisGet (cacheGet s k (.ok .null) ttl).state k = some "null" ∧
    (cacheGet (tick (cacheGet s k (.ok .null) ttl).state t2) k f2 ttl2).result =
      .ok .null ∧
    (cacheGet (tick (cacheGet s k (.ok .null) ttl).state t2) k f2 ttl2).calls
      = 0 := by
  have hsize : (serialize JVal.null).length ≤ MAX_OBJECT_SIZE := by decide
  have hfirst := cacheGet_miss_ok s k .null ttl h1 h2 h3 hsize
  have hcached : redisGet (cacheGet s k (.ok .null) ttl).state k =
      some "null" := by
    rw [hfirst]
    unfold redisGet
    simp only
    rw [storeLookup_insert]
    have : s.now < s.now + ttl := Nat.lt_add_of_pos_right h4
    simp [this]
    rfl
  have hget2 : redisGet (tick (cacheGet s k (.ok .null) ttl).state t2) k =
      some (serialize JVal.null) := by
    rw [hfirst]
    unfold tick redisGet
    simp only
    rw [storeLookup_insert]
    simp [h5]
  have hhit := cacheGet_hit (tick (cacheGet s k (.ok .null) ttl).state t2) k f2
    ttl2 (serialize JVal.null) .null (by rw [hfirst]; exact h1) hget2
    (serialize_ne_empty .null) (deserialize_serialize .null)
  refine ⟨by rw [hfirst], hcached, ?_, ?_⟩ <;> rw [hhit]

theorem C8_null_cached_witness :
    (cacheGet ⟨true, [], 0, [], 0, 0⟩ "k" (.ok .null) 60).result = .ok .null ∧
    redisGet (cacheGet ⟨true, [], 0, [], 0, 0⟩ "k" (.ok .null) 60).state "k" =
      some "null" ∧
    (cacheGet (tick (cacheGet ⟨true, [], 0, [], 0, 0⟩ "k" (.ok .null) 60).state
        30) "k" (.ok (.bool false)) 60).result = .ok .null ∧
    (cacheGet (tick (cacheGet ⟨true, [], 0, [], 0, 0⟩ "k" (.ok .null) 60).state
        30) "k" (.ok (.bool false)) 60).calls = 0 :=
  C8_null_cached ⟨true, [], 0, [], 0, 0⟩ "k" 60 60 30 (.ok (.bool false)) rfl
    (by decide) (by decide) (by decide) (by decide)

/-! ## Claim C7 -/

lemma find?_filter_of_imp {α : Type _} (l : List α) (p q : α → Bool)
    (h : ∀ a ∈ l, p a = true → q a = true) :
    (l.filter q).find? p = l.find? p := by
  induction l with
  | nil => rfl
  | cons a l ih =>
    have ih2 := ih (fun b hb hpb => h b (List.mem_cons_of_mem a hb) hpb)
    by_cases hq : q a = true
    · rw [List.filter_cons_of_pos hq]
      by_cases hp : p a = true
      · rw [List.find?_cons_of_pos _ hp, List.find?_cons_of_pos _ hp]
      · rw [List.find?_cons_of_neg _ (by simpa using hp),
          List.find?_cons_of_neg _ (by simpa using hp), ih2]
    · have hp : ¬ p a = true := fun hpa => hq (h a (List.mem_cons_self a l) hpa)
      rw [List.filter_cons_of_neg (by simpa using hq),
        List.find?_cons_of_neg _ (by simpa using hp), ih2]

lemma mem_redisKeys {s : SeqState} {p : String} {k : String} :
    k ∈ redisKeys s p ↔
      ∃ e ∈ s.store, matchedLive s p e = true ∧ e.1 = k := by
  unfold redisKeys
  simp only [List.mem_map, List.mem_filter]
  constructor
  · rintro ⟨e, ⟨he, hq⟩, rfl⟩
    exact ⟨e, he, hq, rfl⟩
  · rintro ⟨e, he, hq, rfl⟩
    exact ⟨e, ⟨he, hq⟩, rfl⟩

/-- `deletePattern` leaves the availability flag, clock and in-flight map
untouched; only the store changes. -/
lemma deletePattern_frame (s : SeqState) (p : String) :
    (cacheDeletePattern s p).available = s.available ∧
    (cacheDeletePattern s p).now = s.now ∧
    (cacheDeletePattern s p).pending = s.pending ∧
    (cacheDeletePattern s p).hits = s.hits ∧
    (cacheDeletePattern s p).misses = s.misses := by
  unfold cacheDeletePattern redisDel
  repeat' split <;> simp

lemma deletePattern_store (s : SeqState) (p : String)
    (h1 : s.available = true)
    (h2 : (s.store.map (fun e => e.1)).Nodup) :
    (cacheDeletePattern s p).store =
      s.store.filter (fun e => !(matchedLive s p e)) := by
  unfold cacheDeletePattern
  simp only [h1, Bool.not_true, Bool.false_eq_true, if_false]
  by_cases hks : (redisKeys s p).isEmpty
  · rw [if_pos hks]
    rw [List.isEmpty_iff] at hks
    have hfil : ∀ a ∈ s.store, matchedLive s p a = false := by
      intro a ha
      cases hqa : matchedLive s p a with
      | false => rfl
      | true =>
        have : a.1 ∈ redisKeys s p := mem_redisKeys.mpr ⟨a, ha, hqa, rfl⟩
        rw [hks] at this
        exact absurd this (List.not_mem_nil _)
    have : s.store.filter (fun e => !(matchedLive s p e)) = s.store := by
      rw [List.filter_eq_self]
      intro a ha
      simp [hfil a ha]
    rw [this]
  · rw [if_neg hks]
    unfold redisDel
    simp only
    apply List.filter_congr
    intro e he
    have hiff : (redisKeys s p).contains e.1 = matchedLive s p e := by
      cases hqe : matchedLive s p e with
      | true =>
        have hm : e.1 ∈ redisKeys s p := mem_redisKeys.mpr ⟨e, he, hqe, rfl⟩
        simpa [List.elem_iff] using hm
      | false =>
        have hm : e.1 ∉ redisKeys s p := by
          intro hmem
          obtain ⟨e2, he2, hq2, hfst⟩ := mem_redisKeys.mp hmem
          have heq : e2 = e := List.inj_on_of_nodup_map h2 he2 he hfst
          rw [heq] at hq2
          rw [hqe] at hq2
          exact Bool.false_ne_true hq2
        simpa [List.elem_iff] using hm
    rw [hiff]

lemma deletePattern_redisGet (s : SeqState) (p : String)
    (h1 : s.available = true)
    (h2 : (s.store.map (fun e => e.1)).Nodup) (k : String) :
    redisGet (cacheDeletePattern s p) k =
      if globMatch p.data k.data then none else redisGet s k := by
  have hst := deletePattern_store s p h1 h2
  have hnow := (deletePattern_frame s p).2.1
  cases hg : globMatch p.data k.data with
  | false =>
    simp only [Bool.false_eq_true, if_false]
    unfold redisGet storeLookup
    rw [hst, hnow]
    rw [find?_filter_of_imp]
    intro a _ hak
    have : a.1 = k := by simpa using hak
    simp [matchedLive, this, hg]
  | true =>
    simp only [if_pos rfl]
    unfold redisGet storeLookup
    rw [hst, hnow]
    cases hf : ((s.store.filter (fun e => !(matchedLive s p e))).find?
        (fun e => e.1 == k)) with
    | none => rfl
    | some e =>
      have hmem : e ∈ s.store.filter (fun e => !(matchedLive s p e)) :=
        List.mem_of_find?_eq_some hf
      have hkeep : (!(matchedLive s p e)) = true := (List.mem_filter.mp hmem).2
      have hek : e.1 = k := by simpa using List.find?_some hf
      have hdead : ¬ (s.now < e.2.2) := by
        intro hlive
        have hml : matchedLive s p e = true := by
          simp [matchedLive, hek, hg, hlive]
        rw [hml] at hkeep
        simp at hkeep
      obtain ⟨k2, v2, exp2⟩ := e
      simp [hdead]

/-- Claim C7: `deletePattern` removes exactly the live backend entries
whose key matches the glob pattern and leaves every non-matching key
cached: a subsequent `get` on any matching key finds nothing cached and
invokes its origin fetcher, while a `get` on a non-matching cached key
returns the cached value without invoking its fetcher. -/
theorem C7_pattern_invalidation (s : SeqState) (p : String)
    (h1 : s.available = true)
    (h2 : (s.store.map (fun e => e.1)).Nodup) :
    ((cacheDeletePattern s p).store =
        s.store.filter (fun e => !(matchedLive s p e))) ∧
    (∀ k : String, redisGet (cacheDeletePattern s p) k =
        if globMatch p.data k.data then none else redisGet s k) ∧
    (∀ (k : String) (f : Except String JVal) (ttl : Nat),
        globMatch p.data k.data = true →
        s.pending.find? (fun e => e.1 == k) = none →
        (cacheGet (cacheDeletePattern s p) k f ttl).calls = 1) ∧
    (∀ (k : String) (f : Except String JVal) (ttl : Nat) (c : String)
        (v : JVal),
        globMatch p.data k.data = false →
        redisGet s k = some c → c ≠ "" → deserialize c = some v →
        (cacheGet (cacheDeletePattern s p) k f ttl).result = .ok v ∧
        (cacheGet (cacheDeletePattern s p) k f ttl).calls = 0) := by
  have hframe := deletePattern_frame s p
  have havail : (cacheDeletePattern s p).available = true := by
    rw [hframe.1]; exact h1
  refine ⟨deletePattern_store s p h1 h2, deletePattern_redisGet s p h1 h2,
    ?_, ?_⟩
  · intro k f ttl hg hp
    apply cacheGet_miss_calls _ _ _ _ havail
    · rw [deletePattern_redisGet s p h1 h2 k, if_pos hg]
      rfl
    · rw [hframe.2.2.1]
      exact hp
  · intro k f ttl c v hg hc hcne hdes
    have hr : redisGet (cacheDeletePattern s p) k = some c := by
      rw [deletePattern_redisGet s p h1 h2 k, if_neg, hc]
      simp [hg]
    rw [cacheGet_hit _ k f ttl c v havail hr hcne hdes]
    exact ⟨rfl, rfl⟩

/-- Witness for C7, the spec's concrete scenario: with `"a:1"`, `"a:2"`,
`"b:1"` cached, `deletePattern "a:*"` makes gets on `"a:1"` and `"a:2"`
re-invoke their fetchers while a get on `"b:1"` is served from cache with
no fetcher invocation. -/
theorem C7_pattern_invalidation_witness :
    ((cacheGet
        (cacheDeletePattern
          ⟨true, [("a:1", "null", 9), ("a:2", "true", 9), ("b:1", "false", 9)],
            0, [], 0, 0⟩ "a:*") "a:1" (.ok .null) 60).calls = 1) ∧
    ((cacheGet
        (cacheDeletePattern
          ⟨true, [("a:1", "null", 9), ("a:2", "true", 9), ("b:1", "false", 9)],
            0, [], 0, 0⟩ "a:*") "a:2" (.ok .null) 60).calls = 1) ∧
    ((cacheGet
        (cacheDeletePattern
          ⟨true, [("a:1", "null", 9), ("a:2", "true", 9), ("b:1", "false", 9)],
            0, [], 0, 0⟩ "a:*") "b:1" (.ok .null) 60).result =
      .ok (.bool false)) ∧
    ((cacheGet
        (cacheDeletePattern
          ⟨true, [("a:1", "null", 9), ("a:2", "true", 9), ("b:1", "false", 9)],
            0, [], 0, 0⟩ "a:*") "b:1" (.ok .null) 60).calls = 0) := by
  have h := C7_pattern_invalidation
    ⟨true, [("a:1", "null", 9), ("a:2", "true", 9), ("b:1", "false", 9)],
      0, [], 0, 0⟩ "a:*" rfl (by decide)
  refine ⟨?_, ?_, ?_, ?_⟩
  · exact h.2.2.1 "a:1" (.ok .null) 60 (by decide) (by decide)
  · exact h.2.2.1 "a:2" (.ok .null) 60 (by decide) (by decide)
  · exact (h.2.2.2 "b:1" (.ok .null) 60 "false" (.bool false) (by decide)
      (by decide) (by decide) (by decide)).1
  · exact (h.2.2.2 "b:1" (.ok .null) 60 "false" (.bool false) (by decide)
      (by decide) (by decide) (by decide)).2

/-! ## Claim C9 -/

lemma cacheSet_proj (s : SeqState) (k : String) (v : JVal) (ttl : Nat) :
    (cacheSet s k v ttl).available = s.available ∧
    (cacheSet s k v ttl).now = s.now ∧
    (cacheSet s k v ttl).pending = s.pending ∧
    (cacheSet s k v ttl).hits = s.hits ∧
    (cacheSet s k v ttl).misses = s.misses := by
  unfold cacheSet
  repeat' split <;> simp

lemma cacheGet_cases (s : SeqState) (k : String) (f : Except String JVal)
    (ttl : Nat) :
    cacheGet s k f ttl = ⟨f, s, 1⟩ ∨
    (∃ v, cacheGet s k f ttl = ⟨.ok v, { s with hits := s.hits + 1 }, 0⟩) ∨
    (cacheGet s k f ttl = ⟨f, { s with hits := s.hits + 1 }, 1⟩) ∨
    (∃ r, cacheGet s k f ttl = ⟨r, { s with misses := s.misses + 1 }, 0⟩) ∨
    (∃ v, f = .ok v ∧ cacheGet s k f ttl =
        ⟨f, cacheSet { s with misses := s.misses + 1 } k v ttl, 1⟩) ∨
    (cacheGet s k f ttl = ⟨f, { s with misses := s.misses + 1 }, 1⟩) := by
  unfold cacheGet cacheGetMiss
  dsimp only
  repeat' split
  all_goals first
    | exact Or.inl rfl
    | exact Or.inr (Or.inl ⟨_, rfl⟩)
    | exact Or.inr (Or.inr (Or.inl rfl))
    | exact Or.inr (Or.inr (Or.inr (Or.inl ⟨_, rfl⟩)))
    | exact Or.inr (Or.inr (Or.inr (Or.inr (Or.inl ⟨_, rfl, rfl⟩))))
    | exact Or.inr (Or.inr (Or.inr (Or.inr (Or.inr rfl))))

lemma cacheGet_proj (s : SeqState) (k : String) (f : Except String JVal)
    (ttl : Nat) :
    (cacheGet s k f ttl).state.available = s.available ∧
    (cacheGet s k f ttl).state.now = s.now ∧
    (cacheGet s k f ttl).state.pending = s.pending := by
  rcases cacheGet_cases s k f ttl with h | ⟨v, h⟩ | h | ⟨r, h⟩ | ⟨v, hf, h⟩ | h
  · rw [h]; exact ⟨rfl, rfl, rfl⟩
  · rw [h]; exact ⟨rfl, rfl, rfl⟩
  · rw [h]; exact ⟨rfl, rfl, rfl⟩
  · rw [h]; exact ⟨rfl, rfl, rfl⟩
  · rw [h]
    have hp := cacheSet_proj { s with misses := s.misses + 1 } k v ttl
    exact ⟨hp.1, hp.2.1, hp.2.2.1⟩
  · rw [h]; exact ⟨rfl, rfl, rfl⟩

lemma redisGet_mem (s : SeqState) (k c : String)
    (h : redisGet s k = some c) : ∃ e ∈ s.store, e.2.1 = c := by
  unfold redisGet storeLookup at h
  cases hf : s.store.find? (fun e => e.1 == k) with
  | none => rw [hf] at h; exact absurd h (by simp)
  | some e =>
    rw [hf] at h
    obtain ⟨k2, v2, exp2⟩ := e
    dsimp only [Option.map] at h
    by_cases hl : s.now < exp2
    · rw [if_pos hl] at h
      refine ⟨(k2, v2, exp2), List.mem_of_find?_eq_some hf, ?_⟩
      injection h
    · rw [if_neg hl] at h
      exact absurd h (by simp)

lemma cacheGetMiss_counts (s : SeqState) (k : String) (f : Except String JVal)
    (ttl : Nat) (hp : s.pending = []) :
    (cacheGetMiss s k f ttl).state.hits = s.hits ∧
    (cacheGetMiss s k f ttl).state.misses = s.misses + 1 ∧
    (cacheGetMiss s k f ttl).calls = 1 := by
  unfold cacheGetMiss
  dsimp only
  rw [hp]
  simp only [List.find?_nil]
  cases f with
  | ok v =>
    refine ⟨?_, ?_, rfl⟩
    · exact (cacheSet_proj _ k v ttl).2.2.2.1
    · exact (cacheSet_proj _ k v ttl).2.2.2.2
  | error e => exact ⟨rfl, rfl, rfl⟩

lemma cacheGet_counts (s : SeqState) (k : String) (f : Except String JVal)
    (ttl : Nat) (h1 : s.available = true)
    (hwf : ∀ e ∈ s.store, ∃ v, e.2.1 = serialize v) (hp : s.pending = []) :
    (cacheGet s k f ttl).state.hits =
      s.hits + (if truthy (redisGet s k) then 1 else 0) ∧
    (cacheGet s k f ttl).state.misses =
      s.misses + (if truthy (redisGet s k) then 0 else 1) ∧
    (cacheGet s k f ttl).calls = (if truthy (redisGet s k) then 0 else 1) := by
  unfold cacheGet
  simp only [h1, Bool.not_true, Bool.false_eq_true, if_false]
  cases hr : redisGet s k with
  | none =>
    have := cacheGetMiss_counts s k f ttl hp
    simp [truthy, this.1, this.2.1, this.2.2]
  | some c =>
    by_cases hc : c = ""
    · subst hc
      have := cacheGetMiss_counts s k f ttl hp
      simp [truthy, this.1, this.2.1, this.2.2]
    · obtain ⟨e, he, hec⟩ := redisGet_mem s k c hr
      obtain ⟨v, hv⟩ := hwf e he
      have hdes : deserialize c = some v := by
        rw [← hec, hv]
        exact deserialize_serialize v
      simp [hc, hdes, truthy]

lemma cacheSet_wfstore (s : SeqState) (k : String) (v : JVal) (ttl : Nat)
    (hwf : ∀ e ∈ s.store, ∃ w, e.2.1 = serialize w) :
    ∀ e ∈ (cacheSet s k v ttl).store, ∃ w, e.2.1 = serialize w := by
  unfold cacheSet
  dsimp only
  split
  · exact hwf
  · split
    · exact hwf
    · intro e he
      simp only [storeInsert] at he
      rcases List.mem_cons.mp he with hh | ht
      · subst hh
        exact ⟨v, rfl⟩
      · exact hwf e (List.mem_of_mem_filter ht)

lemma cacheGet_wfstore (s : SeqState) (k : String) (f : Except String JVal)
    (ttl : Nat) (hwf : ∀ e ∈ s.store, ∃ v, e.2.1 = serialize v) :
    ∀ e ∈ (cacheGet s k f ttl).state.store, ∃ v, e.2.1 = serialize v := by
  rcases cacheGet_cases s k f ttl with h | ⟨v, h⟩ | h | ⟨r, h⟩ | ⟨v, hf, h⟩ | h
  · rw [h]; exact hwf
  · rw [h]; exact hwf
  · rw [h]; exact hwf
  · rw [h]; exact hwf
  · rw [h]
    exact cacheSet_wfstore { s with misses := s.misses + 1 } k v ttl hwf
  · rw [h]; exact hwf

/-- Preservation of availability, well-formedness and the counters along a
workload of sequential `get`s. -/
lemma runGets_spec (reqs : List GetReq) :
    ∀ s : SeqState, s.available = true → SeqWF s →
      (runGets s reqs).hits = s.hits + countHits s reqs ∧
      (runGets s reqs).misses = s.misses + countMisses s reqs ∧
      countCalls s reqs = countMisses s reqs ∧
      (runGets s reqs).available = true ∧ SeqWF (runGets s reqs) := by
  induction reqs with
  | nil =>
    intro s h1 h2
    exact ⟨rfl, rfl, rfl, h1, h2⟩
  | cons r rs ih =>
    obtain ⟨k, f, ttl⟩ := r
    intro s h1 hwf
    obtain ⟨hpend, hstore⟩ := hwf
    have hc := cacheGet_counts s k f ttl h1 hstore hpend
    have hav : (cacheGet s k f ttl).state.available = true := by
      rw [(cacheGet_proj s k f ttl).1]; exact h1
    have hwf1 : SeqWF (cacheGet s k f ttl).state :=
      ⟨by rw [(cacheGet_proj s k f ttl).2.2]; exact hpend,
       cacheGet_wfstore s k f ttl hstore⟩
    have ihs := ih (cacheGet s k f ttl).state hav hwf1
    refine ⟨?_, ?_, ?_, ihs.2.2.2.1, ihs.2.2.2.2⟩
    · show (runGets (cacheGet s k f ttl).state rs).hits = _
      rw [ihs.1, hc.1, countHits]
      omega
    · show (runGets (cacheGet s k f ttl).state rs).misses = _
      rw [ihs.2.1, hc.2.1, countMisses]
      omega
    · show (cacheGet s k f ttl).calls + _ = _
      rw [ihs.2.2.1, hc.2.2, countMisses]

/-- Claim C9: starting from fresh statistics, a workload of sequential
`get`s producing `M` cache hits and `K` cache misses leaves `hits = M` and
`misses = K`, with each miss (and nothing else) triggering exactly one
origin fetch; `getStats` then reports `hits = M`, `misses = K` and a hit
rate of `M / (M + K)` (as a percentage; `0` when `M + K = 0`), without
mutating the counters or the in-flight registry. -/
theorem C9_stats (s : SeqState) (reqs : List GetReq)
    (h1 : s.available = true) (h2 : SeqWF s)
    (h3 : s.hits = 0) (h4 : s.misses = 0) :
    (runGets s reqs).hits = countHits s reqs ∧
    (runGets s reqs).misses = countMisses s reqs ∧
    countCalls s reqs = countMisses s reqs ∧
    (cacheGetStats (runGets s reqs)).1 =
      ⟨countHits s reqs, countMisses s reqs,
        if countHits s reqs + countMisses s reqs = 0 then 0
        else ((countHits s reqs : ℚ) /
          ((countHits s reqs : ℚ) + (countMisses s reqs : ℚ))) * 100, 0⟩ ∧
    (cacheGetStats (runGets s reqs)).2 = runGets s reqs := by
  have hs := runGets_spec reqs s h1 h2
  have hh : (runGets s reqs).hits = countHits s reqs := by rw [hs.1, h3, Nat.zero_add]
  have hm : (runGets s reqs).misses = countMisses s reqs := by
    rw [hs.2.1, h4, Nat.zero_add]
  refine ⟨hh, hm, hs.2.2.1, ?_, rfl⟩
  unfold cacheGetStats
  simp only [hh, hm]
  have hpl : (runGets s reqs).pending.length = 0 := by
    rw [hs.2.2.2.2.1]; rfl
  rw [hpl]
  by_cases h0 : countHits s reqs + countMisses s reqs = 0
  · simp [h0]
  · have hpos : 0 < countHits s reqs + countMisses s reqs := Nat.pos_of_ne_zero h0
    simp only [hpos, if_pos hpos, if_neg h0]
    congr 1
    push_cast
    ring

theorem C9_stats_witness :
    (runGets ⟨true, [], 0, [], 0, 0⟩
        [("k", .ok .null, 60), ("k", .ok (.bool true), 60)]).hits =
      countHits ⟨true, [], 0, [], 0, 0⟩
        [("k", .ok .null, 60), ("k", .ok (.bool true), 60)] ∧
    (runGets ⟨true, [], 0, [], 0, 0⟩
        [("k", .ok .null, 60), ("k", .ok (.bool true), 60)]).misses =
      countMisses ⟨true, [], 0, [], 0, 0⟩
        [("k", .ok .null, 60), ("k", .ok (.bool true), 60)] ∧
    countCalls ⟨true, [], 0, [], 0, 0⟩
        [("k", .ok .null, 60), ("k", .ok (.bool true), 60)] =
      countMisses ⟨true, [], 0, [], 0, 0⟩
        [("k", .ok .null, 60), ("k", .ok (.bool true), 60)] ∧
    (cacheGetStats (runGets ⟨true, [], 0, [], 0, 0⟩
        [("k", .ok .null, 60), ("k", .ok (.bool true), 60)])).1 =
      ⟨countHits ⟨true, [], 0, [], 0, 0⟩
          [("k", .ok .null, 60), ("k", .ok (.bool true), 60)],
        countMisses ⟨true, [], 0, [], 0, 0⟩
          [("k", .ok .null, 60), ("k", .ok (.bool true), 60)],
        if countHits ⟨true, [], 0, [], 0, 0⟩
              [("k", .ok .null, 60), ("k", .ok (.bool true), 60)] +
            countMisses ⟨true, [], 0, [], 0, 0⟩
              [("k", .ok .null, 60), ("k", .ok (.bool true), 60)] = 0 then 0
        else ((countHits ⟨true, [], 0, [], 0, 0⟩
            [("k", .ok .null, 60), ("k", .ok (.bool true), 60)] : ℚ) /
          ((countHits ⟨true, [], 0, [], 0, 0⟩
              [("k", .ok .null, 60), ("k", .ok (.bool true), 60)] : ℚ) +
            (countMisses ⟨true, [], 0, [], 0, 0⟩
              [("k", .ok .null, 60), ("k", .ok (.bool true), 60)] : ℚ))) * 100,
        0⟩ ∧
    (cacheGetStats (runGets ⟨true, [], 0, [], 0, 0⟩
        [("k", .ok .null, 60), ("k", .ok (.bool true), 60)])).2 =
      runGets ⟨true, [], 0, [], 0, 0⟩
        [("k", .ok .null, 60), ("k", .ok (.bool true), 60)] :=
  C9_stats ⟨true, [], 0, [], 0, 0⟩
    [("k", .ok .null, 60), ("k", .ok (.bool true), 60)] rfl
    ⟨rfl, by simp⟩ rfl rfl

/-! ## Helper lemmas about the concurrent model -/

lemma run_cons (g : GState) (a : Action) (σ : List Action) :
    run g (a :: σ) = run (step g a) σ := rfl

lemma run_append (g : GState) (σ1 σ2 : List Action) :
    run g (σ1 ++ σ2) = run (run g σ1) σ2 :=
  List.foldl_append step g σ1 σ2

lemma run_inv {Inv : GState → Prop} {P : Action → Bool}
    (hstep : ∀ g a, Inv g → P a = true → Inv (step g a)) :
    ∀ (σ : List Action), (∀ a ∈ σ, P a = true) →
      ∀ g : GState, Inv g → Inv (run g σ) := by
  intro σ
  induction σ with
  | nil => intro _ g h; exact h
  | cons a σ ih =>
    intro hP g hI
    exact ih (fun b hb => hP b (List.mem_cons_of_mem a hb)) (step g a)
      (hstep g a hI (hP a (List.mem_cons_self a σ)))

lemma stepSettle_tasks (g : GState) (fid : Nat) :
    (stepSettle g fid).tasks = g.tasks := by
  unfold stepSettle
  cases hf : g.flights.get? fid with
  | none => rfl
  | some fl =>
    dsimp only
    by_cases hph : fl.phase ≠ FPhase.fetching
    · rw [if_pos hph]
    · rw [if_neg hph]
      cases hr : fl.result <;> rfl

lemma stepWrite_tasks (g : GState) (fid : Nat) :
    (stepWrite g fid).tasks = g.tasks := by
  unfold stepWrite
  cases hf : g.flights.get? fid with
  | none => rfl
  | some fl =>
    dsimp only
    by_cases hph : fl.phase ≠ FPhase.writing
    · rw [if_pos hph]
    · rw [if_neg hph]

lemma stepFinish_frame (g : GState) (i : Nat) :
    (stepFinish g i).store = g.store ∧
    (stepFinish g i).flights = g.flights ∧
    (stepFinish g i).inflight = g.inflight ∧
    (stepFinish g i).available = g.available ∧
    (stepFinish g i).hits = g.hits ∧
    (stepFinish g i).misses = g.misses := by
  unfold stepFinish
  cases ht : g.tasks.get? i with
  | none => exact ⟨rfl, rfl, rfl, rfl, rfl, rfl⟩
  | some t =>
    dsimp only
    cases hp : t.phase with
    | ready => exact ⟨rfl, rfl, rfl, rfl, rfl, rfl⟩
    | done r => exact ⟨rfl, rfl, rfl, rfl, rfl, rfl⟩
    | waiting fid =>
      dsimp only
      cases hf : g.flights.get? fid with
      | none => exact ⟨rfl, rfl, rfl, rfl, rfl, rfl⟩
      | some fl =>
        dsimp only
        by_cases hs : fl.phase = FPhase.settled
        · rw [if_pos hs]
          exact ⟨rfl, rfl, rfl, rfl, rfl, rfl⟩
        · rw [if_neg hs]
          exact ⟨rfl, rfl, rfl, rfl, rfl, rfl⟩

lemma stepSettle_id (g : GState) (fid : Nat)
    (h : ∀ fl, g.flights.get? fid = some fl → fl.phase ≠ FPhase.fetching) :
    stepSettle g fid = g := by
  unfold stepSettle
  cases hf : g.flights.get? fid with
  | none => rfl
  | some fl => simp [h fl hf]

lemma stepWrite_id (g : GState) (fid : Nat)
    (h : ∀ fl, g.flights.get? fid = some fl → fl.phase ≠ FPhase.writing) :
    stepWrite g fid = g := by
  unfold stepWrite
  cases hf : g.flights.get? fid with
  | none => rfl
  | some fl => simp [h fl hf]

lemma stepFinish_id_of_not_settled (g : GState) (i : Nat)
    (h : ∀ t fid fl, g.tasks.get? i = some t →
      t.phase = TPhase.waiting fid → g.flights.get? fid = some fl →
      fl.phase ≠ FPhase.settled) :
    stepFinish g i = g := by
  unfold stepFinish
  cases ht : g.tasks.get? i with
  | none => rfl
  | some t =>
    dsimp only
    cases hp : t.phase with
    | ready => rfl
    | done r => rfl
    | waiting fid =>
      dsimp only
      cases hf : g.flights.get? fid with
      | none => rfl
      | some fl => simp [h t fid fl ht hp hf]

/-! ## Claim C10 -/

lemma unavail_step (g0 g : GState) (a : Action) (hInv : UnavailInv g0 g) :
    UnavailInv g0 (step g a) := by
  obtain ⟨hav, hst, hh, hm, hifl, hfl, htasks⟩ := hInv
  cases a with
  | flightSettle fid =>
    have hid : stepSettle g fid = g :=
      stepSettle_id g fid (by rw [hfl]; intro fl hf; simp at hf)
    rw [step, hid]
    exact ⟨hav, hst, hh, hm, hifl, hfl, htasks⟩
  | flightWrite fid =>
    have hid : stepWrite g fid = g :=
      stepWrite_id g fid (by rw [hfl]; intro fl hf; simp at hf)
    rw [step, hid]
    exact ⟨hav, hst, hh, hm, hifl, hfl, htasks⟩
  | taskFinish i =>
    have hid : stepFinish g i = g := by
      apply stepFinish_id_of_not_settled
      intro t fid fl ht hp hf
      rw [hfl] at hf
      simp at hf
    rw [step, hid]
    exact ⟨hav, hst, hh, hm, hifl, hfl, htasks⟩
  | taskRead i =>
    show UnavailInv g0 (stepRead g i)
    unfold stepRead
    cases ht : g.tasks.get? i with
    | none => exact ⟨hav, hst, hh, hm, hifl, hfl, htasks⟩
    | some t =>
      dsimp only
      by_cases hph : t.phase = TPhase.ready
      · have hng : ¬ (t.phase ≠ TPhase.ready) := by simp [hph]
        rw [if_neg hng, if_pos (show (!g.available) = true by rw [hav]; rfl)]
        refine ⟨hav, hst, hh, hm, hifl, hfl, ?_⟩
        intro j t0 hj
        obtain ⟨t2, ht2, hk2, hf2, hcase2⟩ := htasks j t0 hj
        by_cases hij : i = j
        · subst hij
          rw [ht] at ht2
          injection ht2 with ht2
          subst ht2
          have hc0 : t.calls = 0 := by
            rcases hcase2 with ⟨_, hc⟩ | ⟨hd, _⟩
            · exact hc
            · rw [hph] at hd
              exact absurd hd (by simp)
          refine ⟨_, List.get?_set_eq_of_lt _ (by
            rw [List.get?_eq_some] at ht
            exact ht.1), hk2, hf2, Or.inr ⟨?_, ?_⟩⟩
          · show TPhase.done t.fetch = TPhase.done t0.fetch
            rw [hf2]
          · show t.calls + 1 = 1
            rw [hc0]
        · exact ⟨t2, by rw [List.get?_set_ne _ _ hij]; exact ht2, hk2, hf2,
            hcase2⟩
      · rw [if_pos hph]
        exact ⟨hav, hst, hh, hm, hifl, hfl, htasks⟩

/-- Claim C10: with the backend client absent or unavailable, no schedule
of call tasks ever changes the hit counter, the miss counter or the
in-flight registry, and every completed call invoked its own origin
fetcher exactly once and received that fetcher's outcome — two concurrent
gets on the same key each invoke their own fetcher, with no coalescing. -/
theorem C10_fallback_mode (g0 : GState) (σ : List Action)
    (hwf : WFInit g0) (hun : g0.available = false) :
    (run g0 σ).hits = g0.hits ∧ (run g0 σ).misses = g0.misses ∧
    (run g0 σ).inflight = g0.inflight ∧
    ∀ i t0, g0.tasks.get? i = some t0 →
      ∃ t, (run g0 σ).tasks.get? i = some t ∧ t.key = t0.key ∧
        t.fetch = t0.fetch ∧
        ((t.phase = TPhase.ready ∧ t.calls = 0) ∨
         (t.phase = TPhase.done t0.fetch ∧ t.calls = 1)) := by
  obtain ⟨hifl0, hfl0, htasks0⟩ := hwf
  have hInv0 : UnavailInv g0 g0 := by
    refine ⟨hun, rfl, rfl, rfl, hifl0, hfl0, ?_⟩
    intro i t0 hi
    have := htasks0 t0 (List.get?_mem hi)
    exact ⟨t0, hi, rfl, rfl, Or.inl this⟩
  have hInv := run_inv (P := fun _ => true)
    (fun g a hI _ => unavail_step g0 g a hI) σ (fun _ _ => rfl) g0 hInv0
  obtain ⟨_, _, hh, hm, hifl, _, htasks⟩ := hInv
  exact ⟨hh, hm, by rw [hifl, hifl0], htasks⟩

theorem C10_fallback_mode_witness :
    (run ⟨false, [], [⟨"k", .ok .null, .ready, 0⟩,
        ⟨"k", .ok (.bool true), .ready, 0⟩], [], [], 0, 0⟩
      [Action.taskRead 0, Action.taskRead 1]).hits = 0 ∧
    (run ⟨false, [], [⟨"k", .ok .null, .ready, 0⟩,
        ⟨"k", .ok (.bool true), .ready, 0⟩], [], [], 0, 0⟩
      [Action.taskRead 0, Action.taskRead 1]).misses = 0 ∧
    (run ⟨false, [], [⟨"k", .ok .null, .ready, 0⟩,
        ⟨"k", .ok (.bool true), .ready, 0⟩], [], [], 0, 0⟩
      [Action.taskRead 0, Action.taskRead 1]).inflight = [] ∧
    ∀ i t0,
      (⟨false, [], [⟨"k", .ok .null, .ready, 0⟩,
          ⟨"k", .ok (.bool true), .ready, 0⟩], [], [], 0, 0⟩ :
        GState).tasks.get? i = some t0 →
      ∃ t, (run ⟨false, [], [⟨"k", .ok .null, .ready, 0⟩,
          ⟨"k", .ok (.bool true), .ready, 0⟩], [], [], 0, 0⟩
        [Action.taskRead 0, Action.taskRead 1]).tasks.get? i = some t ∧
        t.key = t0.key ∧ t.fetch = t0.fetch ∧
        ((t.phase = TPhase.ready ∧ t.calls = 0) ∨
         (t.phase = TPhase.done t0.fetch ∧ t.calls = 1)) :=
  C10_fallback_mode
    ⟨false, [], [⟨"k", .ok .null, .ready, 0⟩,
      ⟨"k", .ok (.bool true), .ready, 0⟩], [], [], 0, 0⟩
    [Action.taskRead 0, Action.taskRead 1]
    ⟨rfl, rfl, by decide⟩ rfl

/-! ## Claim C2 -/

lemma mapLookup_none_iff (m : List (String × Nat)) (k : String) :
    mapLookup m k = none ↔ k ∉ m.map (fun e => e.1) := by
  unfold mapLookup
  constructor
  · intro h hmem
    obtain ⟨x, hx, hxe⟩ := List.mem_map.mp hmem
    cases hf : m.find? (fun e => e.1 == k) with
    | some y =>
      rw [hf] at h
      simp at h
    | none =>
      have h2 := List.find?_eq_none.mp hf x hx
      rw [hxe] at h2
      exact h2 (by simp)
  · intro h
    cases hf : m.find? (fun e => e.1 == k) with
    | none => rfl
    | some y =>
      have hy := List.mem_of_find?_eq_some hf
      have hp := List.find?_some hf
      exact absurd (List.mem_map.mpr ⟨y, hy, by simpa using hp⟩) h

lemma mapErase_keys_sub (m : List (String × Nat)) (k k2 : String)
    (h : k2 ∈ (mapErase m k).map (fun e => e.1)) :
    k2 ∈ m.map (fun e => e.1) ∧ k2 ≠ k := by
  obtain ⟨x, hx, rfl⟩ := List.mem_map.mp h
  obtain ⟨hxm, hxp⟩ := List.mem_filter.mp hx
  exact ⟨List.mem_map.mpr ⟨x, hxm, rfl⟩, by simpa using hxp⟩

lemma mapErase_nodup (m : List (String × Nat)) (k : String)
    (h : (m.map (fun e => e.1)).Nodup) :
    ((mapErase m k).map (fun e => e.1)).Nodup :=
  List.Nodup.sublist (List.Sublist.map _ (List.filter_sublist m)) h

/-- Core of the settle / write-back case: marking the flight for `fl.key`
and deleting that key's entry keeps every surviving entry pointing at an
unsettled flight. -/
lemma mapInv_erase_settle (g : GState) (fid : Nat) (fl : Flight)
    (ph2 : FPhase) (hf : g.flights.get? fid = some fl) (h : MapInv g) :
    ((mapErase g.inflight fl.key).map (fun e => e.1)).Nodup ∧
    ∀ e ∈ mapErase g.inflight fl.key,
      ∃ fl2, (g.flights.set fid { fl with phase := ph2 }).get? e.2 =
          some fl2 ∧ fl2.key = e.1 ∧ fl2.phase ≠ FPhase.settled := by
  obtain ⟨hnd, hpt⟩ := h
  refine ⟨mapErase_nodup _ _ hnd, ?_⟩
  intro e he
  have hem : e ∈ g.inflight := List.mem_of_mem_filter he
  have hek : ¬ (e.1 == fl.key) = true := by
    have := (List.mem_filter.mp he).2
    simpa using this
  obtain ⟨fl2, hg2, hk2, hp2⟩ := hpt e hem
  have hne : e.2 ≠ fid := by
    intro heq
    rw [heq, hf] at hg2
    injection hg2 with hg2
    rw [hg2] at hek
    exact hek (by rw [hk2]; simp)
  refine ⟨fl2, ?_, hk2, hp2⟩
  rw [List.get?_set_ne _ _ (fun hcon => hne hcon.symm)]
  exact hg2

lemma mapInv_step (g : GState) (a : Action) (h : MapInv g) :
    MapInv (step g a) := by
  cases a with
  | taskFinish i =>
    obtain ⟨hnd, hpt⟩ := h
    have h1 := (stepFinish_frame g i).2.1
    have h2 := (stepFinish_frame g i).2.2.1
    show MapInv (stepFinish g i)
    unfold MapInv
    rw [h1, h2]
    exact ⟨hnd, hpt⟩
  | flightWrite fid =>
    show MapInv (stepWrite g fid)
    unfold stepWrite
    cases hf : g.flights.get? fid with
    | none => exact h
    | some fl =>
      dsimp only
      by_cases hph : fl.phase ≠ FPhase.writing
      · rw [if_pos hph]
        exact h
      · rw [if_neg hph]
        have hcore := mapInv_erase_settle g fid fl FPhase.settled hf h
        exact ⟨hcore.1, hcore.2⟩
  | flightSettle fid =>
    show MapInv (stepSettle g fid)
    unfold stepSettle
    cases hf : g.flights.get? fid with
    | none => exact h
    | some fl =>
      dsimp only
      by_cases hph : fl.phase ≠ FPhase.fetching
      · rw [if_pos hph]
        exact h
      · rw [if_neg hph]
        cases hr : fl.result with
        | error e =>
          dsimp only
          have hcore := mapInv_erase_settle g fid fl FPhase.settled hf h
          rw [hr] at hcore
          exact ⟨hcore.1, hcore.2⟩
        | ok v =>
          dsimp only
          obtain ⟨hnd, hpt⟩ := h
          refine ⟨hnd, ?_⟩
          intro e2 he2
          obtain ⟨fl2, hg2, hk2, hp2⟩ := hpt e2 he2
          by_cases hne : e2.2 = fid
          · subst hne
            rw [hf] at hg2
            injection hg2 with hg2
            refine ⟨⟨fl.key, Except.ok v, FPhase.writing⟩, ?_, ?_, by simp⟩
            · exact List.get?_set_eq_of_lt _ (by
                rw [List.get?_eq_some] at hf
                exact hf.1)
            · show fl.key = e2.1
              rw [hg2]
              exact hk2
          · refine ⟨fl2, ?_, hk2, hp2⟩
            rw [List.get?_set_ne _ _ (fun hcon => hne hcon.symm)]
            exact hg2
  | taskRead i =>
    show MapInv (stepRead g i)
    unfold stepRead
    cases ht : g.tasks.get? i with
    | none => exact h
    | some t =>
      dsimp only
      by_cases hph : t.phase ≠ TPhase.ready
      · rw [if_pos hph]
        exact h
      · rw [if_neg hph]
        by_cases hav : (!g.available) = true
        · rw [if_pos hav]
          exact h
        · rw [if_neg hav]
          have hmiss : MapInv (stepReadMiss g i t) := by
            unfold stepReadMiss
            dsimp only
            cases hlk : mapLookup g.inflight t.key with
            | some fid => exact h
            | none =>
              obtain ⟨hnd, hpt⟩ := h
              constructor
              · refine List.Nodup.cons ?_ hnd
                exact (mapLookup_none_iff g.inflight t.key).mp hlk
              · intro e he
                rcases List.mem_cons.mp he with rfl | hold
                · exact ⟨⟨t.key, t.fetch, FPhase.fetching⟩,
                    List.get?_concat_length _ _, rfl, by simp⟩
                · obtain ⟨fl2, hg2, hk2, hp2⟩ := hpt e hold
                  refine ⟨fl2, ?_, hk2, hp2⟩
                  rw [List.get?_append]
                  · exact hg2
                  · rw [List.get?_eq_some] at hg2
                    exact hg2.1
          cases hlk : gLookup g.store t.key with
          | none => exact hmiss
          | some c =>
            dsimp only
            by_cases hc : c = ""
            · rw [if_pos hc]
              exact hmiss
            · rw [if_neg hc]
              cases hd : deserialize c with
              | some v => exact h
              | none => exact h

/-- Only a read that misses on an unregistered key creates an in-flight
entry; every other atomic segment at most removes entries. -/
lemma inflight_keys_step (g : GState) (a : Action) (k2 : String)
    (hmem : k2 ∈ (step g a).inflight.map (fun e => e.1)) :
    k2 ∈ g.inflight.map (fun e => e.1) ∨
    ∃ i t, a = Action.taskRead i ∧ g.tasks.get? i = some t ∧ t.key = k2 ∧
      t.phase = TPhase.ready ∧ g.available = true ∧
      truthy (gLookup g.store k2) = false ∧
      mapLookup g.inflight k2 = none := by
  cases a with
  | taskFinish i =>
    rw [step, (stepFinish_frame g i).2.2.1] at hmem
    exact Or.inl hmem
  | flightWrite fid =>
    rw [step] at hmem
    unfold stepWrite at hmem
    cases hf : g.flights.get? fid with
    | none => rw [hf] at hmem; exact Or.inl hmem
    | some fl =>
      rw [hf] at hmem
      dsimp only at hmem
      by_cases hph : fl.phase ≠ FPhase.writing
      · rw [if_pos hph] at hmem
        exact Or.inl hmem
      · rw [if_neg hph] at hmem
        exact Or.inl (mapErase_keys_sub _ _ _ hmem).1
  | flightSettle fid =>
    rw [step] at hmem
    unfold stepSettle at hmem
    cases hf : g.flights.get? fid with
    | none => rw [hf] at hmem; exact Or.inl hmem
    | some fl =>
      rw [hf] at hmem
      dsimp only at hmem
      by_cases hph : fl.phase ≠ FPhase.fetching
      · rw [if_pos hph] at hmem
        exact Or.inl hmem
      · rw [if_neg hph] at hmem
        cases hr : fl.result with
        | ok v =>
          rw [hr] at hmem
          exact Or.inl hmem
        | error e =>
          rw [hr] at hmem
          exact Or.inl (mapErase_keys_sub _ _ _ hmem).1
  | taskRead i =>
    rw [step] at hmem
    unfold stepRead at hmem
    cases ht : g.tasks.get? i with
    | none => rw [ht] at hmem; exact Or.inl hmem
    | some t =>
      rw [ht] at hmem
      dsimp only at hmem
      by_cases hph : t.phase ≠ TPhase.ready
      · rw [if_pos hph] at hmem
        exact Or.inl hmem
      · rw [if_neg hph] at hmem
        rw [not_not] at hph
        by_cases hav : (!g.available) = true
        · rw [if_pos hav] at hmem
          exact Or.inl hmem
        · rw [if_neg hav] at hmem
          have hav2 : g.available = true := by
            cases hx : g.available
            · rw [hx] at hav
              exact absurd rfl hav
            · rfl
          have hmisscase :
              k2 ∈ (stepReadMiss g i t).inflight.map (fun e => e.1) →
              truthy (gLookup g.store t.key) = false →
              k2 ∈ g.inflight.map (fun e => e.1) ∨
              ∃ i2 t2, Action.taskRead i = Action.taskRead i2 ∧
                g.tasks.get? i2 = some t2 ∧ t2.key = k2 ∧
                t2.phase = TPhase.ready ∧ g.available = true ∧
                truthy (gLookup g.store k2) = false ∧
                mapLookup g.inflight k2 = none := by
            intro hm htr
            unfold stepReadMiss at hm
            dsimp only at hm
            cases hlk : mapLookup g.inflight t.key with
            | some fid =>
              rw [hlk] at hm
              exact Or.inl hm
            | none =>
              rw [hlk] at hm
              dsimp only at hm
              rcases List.mem_cons.mp hm with rfl | hold
              · exact Or.inr ⟨i, t, rfl, ht, rfl, hph, hav2, htr, hlk⟩
              · exact Or.inl hold
          cases hlk : gLookup g.store t.key with
          | none =>
            rw [hlk] at hmem
            exact hmisscase hmem (by rw [hlk]; rfl)
          | some c =>
            rw [hlk] at hmem
            dsimp only at hmem
            by_cases hc : c = ""
            · rw [if_pos hc] at hmem
              refine hmisscase hmem ?_
              rw [hlk, hc]
              rfl
            · rw [if_neg hc] at hmem
              cases hd : deserialize c with
              | some v =>
                rw [hd] at hmem
                exact Or.inl hmem
              | none =>
                rw [hd] at hmem
                exact Or.inl hmem

/-- A failed fetch removes the key's entry in the settle segment itself. -/
lemma settle_error_removes (g : GState) (fid : Nat) (fl : Flight)
    (e : String) (hf : g.flights.get? fid = some fl)
    (hph : fl.phase = FPhase.fetching) (hres : fl.result = .error e) :
    ∀ k2 ∈ (step g (Action.flightSettle fid)).inflight.map (fun x => x.1),
      k2 ≠ fl.key := by
  intro k2 hk2
  rw [step] at hk2
  unfold stepSettle at hk2
  rw [hf] at hk2
  dsimp only at hk2
  rw [if_neg (by rw [hph]; simp)] at hk2
  rw [hres] at hk2
  exact (mapErase_keys_sub _ _ _ hk2).2

/-- Claim C2 amended: at every reachable instant the in-flight registry
holds at most one entry per key; an entry is created only when a `get` by
a ready task on an available backend misses the cache with no entry for
that key; and an entry is removed by the time its in-flight computation
settles — in the very settle segment when the fetch fails, but only after
the cache write-back segment when the fetch succeeds (while the write is
in flight the entry is still present, pointing at a flight whose fetch
has already settled). -/
theorem C2_registry_amended (g0 : GState) (σ : List Action)
    (hwf : WFInit g0) :
    (((run g0 σ).inflight.map (fun e => e.1)).Nodup ∧
      ∀ e ∈ (run g0 σ).inflight,
        ∃ fl, (run g0 σ).flights.get? e.2 = some fl ∧ fl.key = e.1 ∧
          fl.phase ≠ FPhase.settled) ∧
    (∀ (a : Action) (k2 : String),
        k2 ∈ ((step (run g0 σ) a).inflight.map (fun e => e.1)) →
        k2 ∈ ((run g0 σ).inflight.map (fun e => e.1)) ∨
        ∃ i t, a = Action.taskRead i ∧ (run g0 σ).tasks.get? i = some t ∧
          t.key = k2 ∧ t.phase = TPhase.ready ∧
          (run g0 σ).available = true ∧
          truthy (gLookup (run g0 σ).store k2) = false ∧
          mapLookup (run g0 σ).inflight k2 = none) ∧
    (∀ (fid : Nat) (fl : Flight) (e : String),
        (run g0 σ).flights.get? fid = some fl →
        fl.phase = FPhase.fetching → fl.result = .error e →
        ∀ k2 ∈ ((step (run g0 σ) (Action.flightSettle fid)).inflight.map
            (fun x => x.1)), k2 ≠ fl.key) := by
  have hInv0 : MapInv g0 := by
    constructor
    · rw [hwf.1]
      exact List.nodup_nil
    · rw [hwf.1]
      intro e he
      exact absurd he (List.not_mem_nil e)
  have hInv := run_inv (P := fun _ => true)
    (fun g a hI _ => mapInv_step g a hI) σ (fun _ _ => rfl) g0 hInv0
  exact ⟨⟨hInv.1, hInv.2⟩,
    fun a k2 hm => inflight_keys_step (run g0 σ) a k2 hm,
    fun fid fl e hf hph hres => settle_error_removes (run g0 σ) fid fl e hf
      hph hres⟩

theorem C2_registry_amended_witness :
    (((run ⟨true, [], [⟨"k", .ok .null, .ready, 0⟩], [], [], 0, 0⟩
        [Action.taskRead 0]).inflight.map (fun e => e.1)).Nodup ∧
      ∀ e ∈ (run ⟨true, [], [⟨"k", .ok .null, .ready, 0⟩], [], [], 0, 0⟩
          [Action.taskRead 0]).inflight,
        ∃ fl, (run ⟨true, [], [⟨"k", .ok .null, .ready, 0⟩], [], [], 0, 0⟩
            [Action.taskRead 0]).flights.get? e.2 = some fl ∧
          fl.key = e.1 ∧ fl.phase ≠ FPhase.settled) ∧
    (∀ (a : Action) (k2 : String),
        k2 ∈ ((step (run ⟨true, [], [⟨"k", .ok .null, .ready, 0⟩], [], [],
            0, 0⟩ [Action.taskRead 0]) a).inflight.map (fun e => e.1)) →
        k2 ∈ ((run ⟨true, [], [⟨"k", .ok .null, .ready, 0⟩], [], [], 0, 0⟩
          [Action.taskRead 0]).inflight.map (fun e => e.1)) ∨
        ∃ i t, a = Action.taskRead i ∧
          (run ⟨true, [], [⟨"k", .ok .null, .ready, 0⟩], [], [], 0, 0⟩
            [Action.taskRead 0]).tasks.get? i = some t ∧
          t.key = k2 ∧ t.phase = TPhase.ready ∧
          (run ⟨true, [], [⟨"k", .ok .null, .ready, 0⟩], [], [], 0, 0⟩
            [Action.taskRead 0]).available = true ∧
          truthy (gLookup (run ⟨true, [], [⟨"k", .ok .null, .ready, 0⟩],
            [], [], 0, 0⟩ [Action.taskRead 0]).store k2) = false ∧
          mapLookup (run ⟨true, [], [⟨"k", .ok .null, .ready, 0⟩], [], [],
            0, 0⟩ [Action.taskRead 0]).inflight k2 = none) ∧
    (∀ (fid : Nat) (fl : Flight) (e : String),
        (run ⟨true, [], [⟨"k", .ok .null, .ready, 0⟩], [], [], 0, 0⟩
          [Action.taskRead 0]).flights.get? fid = some fl →
        fl.phase = FPhase.fetching → fl.result = .error e →
        ∀ k2 ∈ ((step (run ⟨true, [], [⟨"k", .ok .null, .ready, 0⟩], [],
            [], 0, 0⟩ [Action.taskRead 0])
            (Action.flightSettle fid)).inflight.map (fun x => x.1)),
          k2 ≠ fl.key) :=
  C2_registry_amended ⟨true, [], [⟨"k", .ok .null, .ready, 0⟩], [], [], 0, 0⟩
    [Action.taskRead 0] ⟨rfl, rfl, by decide⟩

/-- Claim C2 is false as stated: after `[read, settle]` on a single
successful call, the fetch has settled (the flight is in its write-back
phase) yet the in-flight entry for the key is still registered — it is
removed only when the write-back completes. -/
theorem C2_counterexample : ¬ C2AsStated := by
  intro h
  have h2 := h ⟨true, [], [⟨"k", Except.ok JVal.null, TPhase.ready, 0⟩],
      [], [], 0, 0⟩
    [Action.taskRead 0, Action.flightSettle 0] ⟨rfl, rfl, by decide⟩
    ("k", 0) (by decide)
  obtain ⟨fl, hfl, hph⟩ := h2
  have hfl2 : (run ⟨true, [], [⟨"k", Except.ok JVal.null, TPhase.ready, 0⟩],
      [], [], 0, 0⟩
      [Action.taskRead 0, Action.flightSettle 0]).flights.get?
        (("k", 0) : String × Nat).2 =
      some ⟨"k", Except.ok JVal.null, FPhase.writing⟩ := by decide
  rw [hfl2] at hfl
  injection hfl with hfl
  rw [← hfl] at hph
  exact absurd hph (by decide)

/-! ## Claim C1 -/

lemma totalCalls_set (l : List Task) (i : Nat) (t t2 : Task)
    (h : l.get? i = some t) :
    totalCalls (l.set i t2) + t.calls = totalCalls l + t2.calls := by
  induction l generalizing i with
  | nil => simp at h
  | cons a l ih =>
    cases i with
    | zero =>
      injection h with h
      subst h
      simp only [List.set, totalCalls, List.map_cons, List.sum_cons]
      omega
    | succ j =>
      simp only [List.set, totalCalls, List.map_cons, List.sum_cons]
      have h2 := ih j (by simpa using h)
      simp only [totalCalls] at h2
      omega

lemma totalCalls_zero (l : List Task) (h : ∀ t ∈ l, t.calls = 0) :
    totalCalls l = 0 := by
  induction l with
  | nil => rfl
  | cons a l ih =>
    simp only [totalCalls, List.map_cons, List.sum_cons]
    rw [h a (List.mem_cons_self a l)]
    have h2 := ih (fun t ht => h t (List.mem_cons_of_mem a ht))
    simp only [totalCalls] at h2
    omega

lemma get?_singleton (x : Flight) (fid : Nat) (fl : Flight)
    (h : ([x] : List Flight).get? fid = some fl) : fid = 0 ∧ fl = x := by
  cases fid with
  | zero =>
    injection h with h
    exact ⟨rfl, h.symm⟩
  | succ j => simp at h

lemma mapErase_singleton_self (k : String) (fid : Nat) :
    mapErase [(k, fid)] k = [] := by
  simp [mapErase]

lemma mapLookup_singleton_self (k : String) (fid : Nat) :
    mapLookup [(k, fid)] k = some fid := by
  unfold mapLookup
  rw [List.find?_cons_of_pos _ (by simp)]
  rfl

/-- Before the fetch settles, any non-settle segment preserves the
stampede-window invariant. -/
lemma stampede1_step (k : String) (f : Except String JVal) (n : Nat)
    (st0 : List (String × String)) (g : GState) (a : Action)
    (hInv : StampedeInv1 k f n st0 g) (ha : isSettleAct a = false) :
    StampedeInv1 k f n st0 (step g a) := by
  obtain ⟨hav, hst, hlook, hlen, hkf, hcases⟩ := hInv
  cases a with
  | flightSettle fid => simp [isSettleAct] at ha
  | flightWrite fid =>
    have hid : stepWrite g fid = g := by
      apply stepWrite_id
      intro fl hf
      rcases hcases with ⟨hfl, _, _⟩ | ⟨hfl, _, _, _⟩
      · rw [hfl] at hf
        simp at hf
      · rw [hfl] at hf
        obtain ⟨_, rfl⟩ := get?_singleton _ _ _ hf
        simp
    rw [step, hid]
    exact ⟨hav, hst, hlook, hlen, hkf, hcases⟩
  | taskFinish i =>
    have hid : stepFinish g i = g := by
      apply stepFinish_id_of_not_settled
      intro t fid fl ht hp hf
      rcases hcases with ⟨hfl, _, _⟩ | ⟨hfl, _, _, _⟩
      · rw [hfl] at hf
        simp at hf
      · rw [hfl] at hf
        obtain ⟨_, rfl⟩ := get?_singleton _ _ _ hf
        simp
    rw [step, hid]
    exact ⟨hav, hst, hlook, hlen, hkf, hcases⟩
  | taskRead i =>
    show StampedeInv1 k f n st0 (stepRead g i)
    unfold stepRead
    cases ht : g.tasks.get? i with
    | none => exact ⟨hav, hst, hlook, hlen, hkf, hcases⟩
    | some t =>
      dsimp only
      have htmem := List.get?_mem ht
      have htk := (hkf t htmem).1
      have htf := (hkf t htmem).2
      by_cases hph : t.phase ≠ TPhase.ready
      · rw [if_pos hph]
        exact ⟨hav, hst, hlook, hlen, hkf, hcases⟩
      · rw [if_neg hph]
        rw [not_not] at hph
        rw [if_neg (show ¬ ((!g.available) = true) by rw [hav]; simp)]
        have hlk : gLookup g.store t.key = none := by
          rw [htk, hst]
          exact hlook
        rw [hlk]
        rcases hcases with ⟨hfl, hifl, hall⟩ | ⟨hfl, hifl, htot, hall⟩
        · -- first reader: creates the flight and registers it
          have hmapnone : mapLookup g.inflight t.key = none := by
            rw [hifl]
            rfl
          have hstep : stepReadMiss g i t =
              { g with misses := g.misses + 1,
                       flights := g.flights ++
                         [⟨t.key, t.fetch, FPhase.fetching⟩],
                       inflight := (t.key, g.flights.length) :: g.inflight,
                       tasks := g.tasks.set i
                         { t with phase := TPhase.waiting g.flights.length,
                                  calls := t.calls + 1 } } := by
            unfold stepReadMiss
            dsimp only
            rw [hmapnone]
          rw [hstep]
          refine ⟨hav, hst, hlook, ?_, ?_, Or.inr ⟨?_, ?_, ?_, ?_⟩⟩
          · show (g.tasks.set i _).length = n
            rw [List.length_set]
            exact hlen
          · intro t2 ht2
            rcases List.mem_or_eq_of_mem_set ht2 with hmem | rfl
            · exact hkf t2 hmem
            · exact ⟨htk, htf⟩
          · show g.flights ++ [⟨t.key, t.fetch, FPhase.fetching⟩] =
              [⟨k, f, FPhase.fetching⟩]
            rw [hfl, htk, htf]
            rfl
          · show (t.key, g.flights.length) :: g.inflight = [(k, 0)]
            rw [hfl, hifl, htk]
            rfl
          · show totalCalls (g.tasks.set i
              { t with phase := TPhase.waiting g.flights.length,
                       calls := t.calls + 1 }) = 1
            have hts := totalCalls_set g.tasks i t
              { t with phase := TPhase.waiting g.flights.length,
                       calls := t.calls + 1 } ht
            dsimp only at hts
            have hz := totalCalls_zero g.tasks (fun t2 ht2 => (hall t2 ht2).2)
            have hc0 : t.calls = 0 := (hall t htmem).2
            omega
          · intro t2 ht2
            rcases List.mem_or_eq_of_mem_set ht2 with hmem | rfl
            · exact Or.inl (hall t2 hmem)
            · refine Or.inr ?_
              show TPhase.waiting g.flights.length = TPhase.waiting 0
              rw [hfl]
              rfl
        · -- later reader: attaches to the existing in-flight entry
          have hsome : mapLookup g.inflight t.key = some 0 := by
            rw [hifl, htk]
            exact mapLookup_singleton_self k 0
          have hstep : stepReadMiss g i t =
              { g with misses := g.misses + 1,
                       tasks := g.tasks.set i
                         { t with phase := TPhase.waiting 0 } } := by
            unfold stepReadMiss
            dsimp only
            rw [hsome]
          rw [hstep]
          refine ⟨hav, hst, hlook, ?_, ?_, Or.inr ⟨hfl, hifl, ?_, ?_⟩⟩
          · show (g.tasks.set i _).length = n
            rw [List.length_set]
            exact hlen
          · intro t2 ht2
            rcases List.mem_or_eq_of_mem_set ht2 with hmem | rfl
            · exact hkf t2 hmem
            · exact ⟨htk, htf⟩
          · show totalCalls (g.tasks.set i
              { t with phase := TPhase.waiting 0 }) = 1
            have hts := totalCalls_set g.tasks i t
              { t with phase := TPhase.waiting 0 } ht
            dsimp only at hts
            omega
          · intro t2 ht2
            rcases List.mem_or_eq_of_mem_set ht2 with hmem | rfl
            · exact hall t2 hmem
            · exact Or.inr rfl

/-- A task that has not yet run its read segment stays un-run through any
schedule that contains no read segment for it. -/
lemma ready_persists_step (g : GState) (a : Action) (i : Nat) (t : Task)
    (ha : isReadAct a = false) (ht : g.tasks.get? i = some t)
    (hph : t.phase = TPhase.ready) :
    (step g a).tasks.get? i = some t := by
  cases a with
  | taskRead j => simp [isReadAct] at ha
  | flightSettle fid =>
    rw [step, stepSettle_tasks]
    exact ht
  | flightWrite fid =>
    rw [step, stepWrite_tasks]
    exact ht
  | taskFinish j =>
    show (stepFinish g j).tasks.get? i = some t
    unfold stepFinish
    cases ht2 : g.tasks.get? j with
    | none => exact ht
    | some t2 =>
      dsimp only
      cases hp2 : t2.phase with
      | ready => exact ht
      | done r => exact ht
      | waiting fid =>
        dsimp only
        cases hf : g.flights.get? fid with
        | none => exact ht
        | some fl =>
          dsimp only
          by_cases hs : fl.phase = FPhase.settled
          · rw [if_pos hs]
            by_cases hij : j = i
            · subst hij
              rw [ht] at ht2
              injection ht2 with ht2
              rw [← ht2, hph] at hp2
              exact absurd hp2 (by simp)
            · show (g.tasks.set j _).get? i = some t
              rw [List.get?_set_ne _ _ hij]
              exact ht
          · rw [if_neg hs]
            exact ht

lemma ready_persists : ∀ (σ : List Action),
    (∀ a ∈ σ, isReadAct a = false) →
    ∀ (g : GState) (i : Nat) (t : Task), g.tasks.get? i = some t →
      t.phase = TPhase.ready → (run g σ).tasks.get? i = some t := by
  intro σ
  induction σ with
  | nil =>
    intro _ g i t ht _
    exact ht
  | cons a σ ih =>
    intro hσ g i t ht hph
    have h1 := ready_persists_step g a i t (hσ a (List.mem_cons_self a σ))
      ht hph
    exact ih (fun b hb => hσ b (List.mem_cons_of_mem a hb)) (step g a) i t
      h1 hph

/-- A waiter whose flight has settled finishes with the flight's result. -/
lemma stepFinish_settled (g : GState) (i : Nat) (t : Task) (fid : Nat)
    (fl : Flight) (ht : g.tasks.get? i = some t)
    (hp : t.phase = TPhase.waiting fid) (hf : g.flights.get? fid = some fl)
    (hs : fl.phase = FPhase.settled) :
    stepFinish g i =
      { g with tasks := g.tasks.set i { t with phase := TPhase.done fl.result } } := by
  unfold stepFinish
  rw [ht]
  dsimp only
  rw [hp]
  dsimp only
  rw [hf]
  dsimp only
  rw [if_pos hs]

/-- After every caller has registered, any non-read segment preserves the
settle / write-back / finish invariant. -/
lemma stampede2_step (k : String) (f : Except String JVal) (n : Nat)
    (st0 : List (String × String)) (g : GState) (a : Action)
    (hInv : StampedeInv2 k f n st0 g) (ha : isReadAct a = false) :
    StampedeInv2 k f n st0 (step g a) := by
  obtain ⟨hav, hlen, htot, htasks, hcases⟩ := hInv
  cases a with
  | taskRead i => simp [isReadAct] at ha
  | flightSettle fid =>
    rcases hcases with ⟨hfl, hifl, hst⟩ | ⟨v, hfv, hfl, hifl, hst⟩ |
      ⟨v, hfv, hfl, hifl, hst⟩ | ⟨e, hfe, hfl, hifl, hst⟩
    · -- the fetch settles
      cases fid with
      | succ j =>
        have hid : stepSettle g (j + 1) = g := by
          apply stepSettle_id
          intro fl hf
          rw [hfl] at hf
          simp at hf
        rw [step, hid]
        exact ⟨hav, hlen, htot, htasks, Or.inl ⟨hfl, hifl, hst⟩⟩
      | zero =>
        show StampedeInv2 k f n st0 (stepSettle g 0)
        unfold stepSettle
        rw [hfl]
        simp only [List.get?]
        rw [if_neg (show ¬ (FPhase.fetching ≠ FPhase.fetching) by simp)]
        cases hf2 : f with
        | ok v =>
          dsimp only
          refine ⟨hav, hlen, htot, ?_, Or.inr (Or.inl ⟨v, rfl, ?_, ?_, ?_⟩)⟩
          · rw [hf2] at htasks
            exact htasks
          · rfl
          · exact hifl
          · show (if (g.available &&
                decide ((serialize v).length ≤ MAX_OBJECT_SIZE)) = true
              then gInsert g.store k (serialize v) else g.store) =
              writeBackStore st0 k v
            rw [hav, hst]
            unfold writeBackStore
            by_cases hsz : (serialize v).length ≤ MAX_OBJECT_SIZE
            · rw [if_pos (by simp [hsz]), if_pos hsz]
            · rw [if_neg (by simp [hsz]), if_neg hsz]
        | error e =>
          dsimp only
          refine ⟨hav, hlen, htot, ?_,
            Or.inr (Or.inr (Or.inr ⟨e, rfl, ?_, ?_, ?_⟩))⟩
          · rw [hf2] at htasks
            exact htasks
          · rfl
          · show mapErase g.inflight k = []
            rw [hifl]
            exact mapErase_singleton_self k 0
          · exact hst
    · -- already writing: the settle segment is a no-op
      have hid : stepSettle g fid = g := by
        apply stepSettle_id
        intro fl hf
        rw [hfl] at hf
        obtain ⟨_, rfl⟩ := get?_singleton _ _ _ hf
        simp
      rw [step, hid]
      exact ⟨hav, hlen, htot, htasks, Or.inr (Or.inl ⟨v, hfv, hfl, hifl, hst⟩)⟩
    · have hid : stepSettle g fid = g := by
        apply stepSettle_id
        intro fl hf
        rw [hfl] at hf
        obtain ⟨_, rfl⟩ := get?_singleton _ _ _ hf
        simp
      rw [step, hid]
      exact ⟨hav, hlen, htot, htasks,
        Or.inr (Or.inr (Or.inl ⟨v, hfv, hfl, hifl, hst⟩))⟩
    · have hid : stepSettle g fid = g := by
        apply stepSettle_id
        intro fl hf
        rw [hfl] at hf
        obtain ⟨_, rfl⟩ := get?_singleton _ _ _ hf
        simp
      rw [step, hid]
      exact ⟨hav, hlen, htot, htasks,
        Or.inr (Or.inr (Or.inr ⟨e, hfe, hfl, hifl, hst⟩))⟩
  | flightWrite fid =>
    rcases hcases with ⟨hfl, hifl, hst⟩ | ⟨v, hfv, hfl, hifl, hst⟩ |
      ⟨v, hfv, hfl, hifl, hst⟩ | ⟨e, hfe, hfl, hifl, hst⟩
    · have hid : stepWrite g fid = g := by
        apply stepWrite_id
        intro fl hf
        rw [hfl] at hf
        obtain ⟨_, rfl⟩ := get?_singleton _ _ _ hf
        simp
      rw [step, hid]
      exact ⟨hav, hlen, htot, htasks, Or.inl ⟨hfl, hifl, hst⟩⟩
    · -- write-back completes: entry removed, flight settled
      cases fid with
      | succ j =>
        have hid : stepWrite g (j + 1) = g := by
          apply stepWrite_id
          intro fl hf
          rw [hfl] at hf
          simp at hf
        rw [step, hid]
        exact ⟨hav, hlen, htot, htasks,
          Or.inr (Or.inl ⟨v, hfv, hfl, hifl, hst⟩)⟩
      | zero =>
        show StampedeInv2 k f n st0 (stepWrite g 0)
        unfold stepWrite
        rw [hfl]
        simp only [List.get?]
        rw [if_neg (show ¬ (FPhase.writing ≠ FPhase.writing) by simp)]
        refine ⟨hav, hlen, htot, htasks,
          Or.inr (Or.inr (Or.inl ⟨v, hfv, ?_, ?_, ?_⟩))⟩
        · rfl
        · show mapErase g.inflight k = []
          rw [hifl]
          exact mapErase_singleton_self k 0
        · exact hst
    · have hid : stepWrite g fid = g := by
        apply stepWrite_id
        intro fl hf
        rw [hfl] at hf
        obtain ⟨_, rfl⟩ := get?_singleton _ _ _ hf
        simp
      rw [step, hid]
      exact ⟨hav, hlen, htot, htasks,
        Or.inr (Or.inr (Or.inl ⟨v, hfv, hfl, hifl, hst⟩))⟩
    · have hid : stepWrite g fid = g := by
        apply stepWrite_id
        intro fl hf
        rw [hfl] at hf
        obtain ⟨_, rfl⟩ := get?_singleton _ _ _ hf
        simp
      rw [step, hid]
      exact ⟨hav, hlen, htot, htasks,
        Or.inr (Or.inr (Or.inr ⟨e, hfe, hfl, hifl, hst⟩))⟩
  | taskFinish i =>
    cases ht : g.tasks.get? i with
    | none =>
      have hid : stepFinish g i = g := by
        unfold stepFinish
        rw [ht]
      rw [step, hid]
      exact ⟨hav, hlen, htot, htasks, hcases⟩
    | some t =>
      have htmem := List.get?_mem ht
      obtain ⟨htk, htf, hphase⟩ := htasks t htmem
      rcases hphase with hw | hd
      · rcases hcases with ⟨hfl, hifl, hst⟩ | ⟨v, hfv, hfl, hifl, hst⟩ |
          ⟨v, hfv, hfl, hifl, hst⟩ | ⟨e, hfe, hfl, hifl, hst⟩
        · -- flight still fetching: finish is a no-op
          have hid : stepFinish g i = g := by
            apply stepFinish_id_of_not_settled
            intro t2 fid fl ht2 hp2 hf2
            rw [hfl] at hf2
            obtain ⟨_, rfl⟩ := get?_singleton _ _ _ hf2
            simp
          rw [step, hid]
          exact ⟨hav, hlen, htot, htasks, Or.inl ⟨hfl, hifl, hst⟩⟩
        · -- flight writing back: finish is a no-op
          have hid : stepFinish g i = g := by
            apply stepFinish_id_of_not_settled
            intro t2 fid fl ht2 hp2 hf2
            rw [hfl] at hf2
            obtain ⟨_, rfl⟩ := get?_singleton _ _ _ hf2
            simp
          rw [step, hid]
          exact ⟨hav, hlen, htot, htasks,
            Or.inr (Or.inl ⟨v, hfv, hfl, hifl, hst⟩)⟩
        · -- flight settled (success): the waiter finishes with the result
          have hfget : g.flights.get? 0 = some ⟨k, f, FPhase.settled⟩ := by
            rw [hfl]
            rfl
          have hid := stepFinish_settled g i t 0 ⟨k, f, FPhase.settled⟩ ht hw
            hfget rfl
          rw [step, hid]
          dsimp only
          refine ⟨hav, ?_, ?_, ?_,
            Or.inr (Or.inr (Or.inl ⟨v, hfv, hfl, hifl, hst⟩))⟩
          · show (g.tasks.set i { t with phase := TPhase.done f }).length = n
            rw [List.length_set]
            exact hlen
          · show totalCalls
              (g.tasks.set i { t with phase := TPhase.done f }) = 1
            have hts := totalCalls_set g.tasks i t
              { t with phase := TPhase.done f } ht
            dsimp only at hts
            omega
          · intro t2 ht2
            rcases List.mem_or_eq_of_mem_set ht2 with hmem | rfl
            · exact htasks t2 hmem
            · exact ⟨htk, htf, Or.inr rfl⟩
        · -- flight settled (failure): the waiter finishes with the rejection
          have hfget : g.flights.get? 0 = some ⟨k, f, FPhase.settled⟩ := by
            rw [hfl]
            rfl
          have hid := stepFinish_settled g i t 0 ⟨k, f, FPhase.settled⟩ ht hw
            hfget rfl
          rw [step, hid]
          dsimp only
          refine ⟨hav, ?_, ?_, ?_,
            Or.inr (Or.inr (Or.inr ⟨e, hfe, hfl, hifl, hst⟩))⟩
          · show (g.tasks.set i { t with phase := TPhase.done f }).length = n
            rw [List.length_set]
            exact hlen
          · show totalCalls
              (g.tasks.set i { t with phase := TPhase.done f }) = 1
            have hts := totalCalls_set g.tasks i t
              { t with phase := TPhase.done f } ht
            dsimp only at hts
            omega
          · intro t2 ht2
            rcases List.mem_or_eq_of_mem_set ht2 with hmem | rfl
            · exact htasks t2 hmem
            · exact ⟨htk, htf, Or.inr rfl⟩
      · rw [step]
        have hid : stepFinish g i = g := by
          unfold stepFinish
          rw [ht]
          dsimp only
          rw [hd]
        rw [hid]
        exact ⟨hav, hlen, htot, htasks, hcases⟩

/-- Claim C1 (stampede protection): start from an uncached key, an
available backend and `n ≥ 2` concurrent `get` calls for that key with
the same origin fetcher.  For any schedule in which every caller runs its
read segment before the fetch settles (the concurrency window) and which
runs all callers to completion, the origin fetcher is invoked exactly
once in total, every caller receives that single fetch's outcome — the
same resolved value, or the same rejection — and when the fetch fails
nothing is written to the backend. -/
theorem C1_stampede (k : String) (f : Except String JVal) (n : Nat)
    (g0 : GState) (σ1 σ2 : List Action)
    (hinit : stampedeInit g0 k f n) (hn : 2 ≤ n)
    (hσ1 : ∀ a ∈ σ1, isSettleAct a = false)
    (hσ2 : ∀ a ∈ σ2, isReadAct a = false)
    (hdone : AllDone (run g0 (σ1 ++ σ2))) :
    totalCalls (run g0 (σ1 ++ σ2)).tasks = 1 ∧
    (∀ t ∈ (run g0 (σ1 ++ σ2)).tasks, t.phase = TPhase.done f) ∧
    (∀ e, f = Except.error e → (run g0 (σ1 ++ σ2)).store = g0.store) := by
  obtain ⟨hav0, hlook0, hifl0, hfl0, htasks0⟩ := hinit
  have hInv1_0 : StampedeInv1 k f n g0.store g0 := by
    refine ⟨hav0, rfl, hlook0, ?_, ?_, Or.inl ⟨hfl0, hifl0, ?_⟩⟩
    · rw [htasks0, List.length_replicate]
    · intro t ht
      rw [htasks0] at ht
      rw [List.eq_of_mem_replicate ht]
      exact ⟨rfl, rfl⟩
    · intro t ht
      rw [htasks0] at ht
      rw [List.eq_of_mem_replicate ht]
      exact ⟨rfl, rfl⟩
  have hInv1 : StampedeInv1 k f n g0.store (run g0 σ1) :=
    run_inv (P := fun a => !isSettleAct a)
      (fun g a hI hP => stampede1_step k f n g0.store g a hI
        (by simpa using hP))
      σ1 (fun a haσ => by simp [hσ1 a haσ]) g0 hInv1_0
  have hnoready : ∀ i t, (run g0 σ1).tasks.get? i = some t →
      t.phase ≠ TPhase.ready := by
    intro i t ht hph
    have hpersist := ready_persists σ2 hσ2 (run g0 σ1) i t ht hph
    rw [← run_append] at hpersist
    have hmem := List.get?_mem hpersist
    have hdn := hdone t hmem
    rw [hph] at hdn
    simp [isDone] at hdn
  obtain ⟨hav1, hst1, hlook1, hlen1, hkf1, hcases1⟩ := hInv1
  rcases hcases1 with ⟨hfl1, hifl1, hall1⟩ | ⟨hfl1, hifl1, htot1, hall1⟩
  · exfalso
    cases hg : (run g0 σ1).tasks.get? 0 with
    | none =>
      rw [List.get?_eq_none] at hg
      rw [hlen1] at hg
      omega
    | some t =>
      exact hnoready 0 t hg (hall1 t (List.get?_mem hg)).1
  · have hInv2_0 : StampedeInv2 k f n g0.store (run g0 σ1) := by
      refine ⟨hav1, hlen1, htot1, ?_, Or.inl ⟨hfl1, hifl1, hst1⟩⟩
      intro t ht
      refine ⟨(hkf1 t ht).1, (hkf1 t ht).2, Or.inl ?_⟩
      rcases hall1 t ht with ⟨hr, _⟩ | hw
      · exfalso
        obtain ⟨i, hi⟩ := List.mem_iff_get?.mp ht
        exact hnoready i t hi hr
      · exact hw
    have hInv2 : StampedeInv2 k f n g0.store (run (run g0 σ1) σ2) :=
      run_inv (P := fun a => !isReadAct a)
        (fun g a hI hP => stampede2_step k f n g0.store g a hI
          (by simpa using hP))
        σ2 (fun a haσ => by simp [hσ2 a haσ]) (run g0 σ1) hInv2_0
    rw [← run_append] at hInv2
    obtain ⟨hav2, hlen2, htot2, htasks2, hcases2⟩ := hInv2
    refine ⟨htot2, ?_, ?_⟩
    · intro t ht
      rcases (htasks2 t ht).2.2 with hw | hd
      · exfalso
        have hdn := hdone t ht
        rw [hw] at hdn
        simp [isDone] at hdn
      · exact hd
    · intro e hfe
      rcases hcases2 with ⟨_, _, hst⟩ | ⟨v, hfv, _, _, hst⟩ |
        ⟨v, hfv, _, _, hst⟩ | ⟨e2, _, _, _, hst⟩
      · exact hst
      · rw [hfe] at hfv
        exact absurd hfv (by simp)
      · rw [hfe] at hfv
        exact absurd hfv (by simp)
      · exact hst

theorem C1_stampede_witness :
    totalCalls (run ⟨true, [],
      List.replicate 2 ⟨"k", Except.ok JVal.null, TPhase.ready, 0⟩,
      [], [], 0, 0⟩
      ([Action.taskRead 0, Action.taskRead 1] ++
        [Action.flightSettle 0, Action.flightWrite 0, Action.taskFinish 0,
          Action.taskFinish 1])).tasks = 1 ∧
    (∀ t ∈ (run ⟨true, [],
        List.replicate 2 ⟨"k", Except.ok JVal.null, TPhase.ready, 0⟩,
        [], [], 0, 0⟩
        ([Action.taskRead 0, Action.taskRead 1] ++
          [Action.flightSettle 0, Action.flightWrite 0, Action.taskFinish 0,
            Action.taskFinish 1])).tasks,
      t.phase = TPhase.done (Except.ok JVal.null)) ∧
    (∀ e : String, (Except.ok JVal.null : Except String JVal) =
        Except.error e →
      (run ⟨true, [],
        List.replicate 2 ⟨"k", Except.ok JVal.null, TPhase.ready, 0⟩,
        [], [], 0, 0⟩
        ([Action.taskRead 0, Action.taskRead 1] ++
          [Action.flightSettle 0, Action.flightWrite 0, Action.taskFinish 0,
            Action.taskFinish 1])).store =
      (⟨true, [],
        List.replicate 2 ⟨"k", Except.ok JVal.null, TPhase.ready, 0⟩,
        [], [], 0, 0⟩ : GState).store) :=
  C1_stampede "k" (Except.ok JVal.null) 2
    ⟨true, [], List.replicate 2 ⟨"k", Except.ok JVal.null, TPhase.ready, 0⟩,
      [], [], 0, 0⟩
    [Action.taskRead 0, Action.taskRead 1]
    [Action.flightSettle 0, Action.flightWrite 0, Action.taskFinish 0,
      Action.taskFinish 1]
    ⟨rfl, rfl, rfl, rfl, rfl⟩ (by decide) (by decide) (by decide)
    (by unfold AllDone; decide)

end CacheSpec
